import Mathlib

/-! The Mercury runtime wrapper (`runtime/mercury_wrapper.c`)

A shallow embedding of the startup, interpreter-driver and termination code of
the Mercury runtime, followed by theorems about it.

* Machine words, stack addresses and heap addresses are natural numbers.
* Code addresses are values of `Code`; a cast between `Code *` and `Word` is
  the bijection `Code.toWord` / `Code.ofWord`.
* Functions of the C library and of other runtime modules that the file calls
  but does not define (`getopt`, `sscanf`, the tracer and profiler hooks, the
  user program) are parameters of the definitions.
* Conditional compilation (`#ifdef`) is a field of `Build`.
-/

namespace MercuryWrapper

/-! ## Build configuration and global variables -/

/-- The preprocessor symbols that `mercury_wrapper.c` tests, and the width of
`unsigned long` on the target. -/
structure Build where
  CONSERVATIVE_GC : Bool
  MR_NEED_INITIALIZATION_AT_START : Bool
  MR_THREAD_SAFE : Bool
  MR_USE_EXTERNAL_DEBUGGER : Bool
  MR_USE_TRAIL : Bool
  PROFILE_TIME : Bool
  TAGBITS : Nat
  ULONG_BITS : Nat

/-- Values of `enum MR_TimeProfileMethod`. -/
inductive MR_TimeProfileMethod
  | MR_profile_real_time
  | MR_profile_user_time
  | MR_profile_user_plus_system_time
  deriving DecidableEq, Repr

/-- Values that `MR_trace_handler` takes in this file. -/
inductive MR_TraceHandler
  | MR_TRACE_INTERNAL
  | MR_TRACE_EXTERNAL
  deriving DecidableEq, Repr

/-- Labels defined by `Define_entry` and `Define_label` inside
`BEGIN_MODULE(interpreter_module)`. -/
inductive Label
  | do_interpreter
  | global_success
  | global_fail
  | all_done
  deriving DecidableEq, Repr

/-- A code address (`Code *`): NULL, one of the labels of `interpreter_module`,
or code outside this file (the user program, the engine), named by a number. -/
inductive Code
  | null
  | label (l : Label)
  | ext (a : Nat)
  deriving DecidableEq, Repr

/-- The cast `(Word) c` of a code address. -/
def Code.toWord : Code → Nat
  | .null => 0
  | .label .do_interpreter => 1
  | .label .global_success => 2
  | .label .global_fail => 3
  | .label .all_done => 4
  | .ext a => a + 5

/-- The cast `(Code *) w` of a word. -/
def Code.ofWord : Nat → Code
  | 0 => .null
  | 1 => .label .do_interpreter
  | 2 => .label .global_success
  | 3 => .label .global_fail
  | 4 => .label .all_done
  | a + 5 => .ext a

/-- The global variables that `mercury_wrapper.c` defines or assigns.  The
eleven debugging flags, `MR_trace_enabled`, `MR_trace_handler`, `GC_quiet` and
`GC_dont_gc` are defined in other modules and assigned here. -/
structure Globals where
  heap_size : Nat
  detstack_size : Nat
  nondstack_size : Nat
  solutions_heap_size : Nat
  global_heap_size : Nat
  trail_size : Nat
  heap_zone_size : Nat
  detstack_zone_size : Nat
  nondstack_zone_size : Nat
  solutions_heap_zone_size : Nat
  global_heap_zone_size : Nat
  trail_zone_size : Nat
  pcache_size : Nat
  check_space : Bool
  benchmark_all_solns : Bool
  use_own_timer : Bool
  repeats : Int
  MR_num_threads : Nat
  MR_time_profile_method : MR_TimeProfileMethod
  progname : List Char
  mercury_argc : Int
  mercury_argv : List (List Char)
  mercury_exit_status : Int
  MR_profiling : Bool
  program_entry_point : Code
  calldebug : Bool
  nondstackdebug : Bool
  detstackdebug : Bool
  heapdebug : Bool
  gotodebug : Bool
  sregdebug : Bool
  finaldebug : Bool
  tracedebug : Bool
  progdebug : Bool
  memdebug : Bool
  detaildebug : Bool
  MR_trace_enabled : Bool
  MR_trace_handler : MR_TraceHandler
  GC_quiet : Bool
  GC_dont_gc : Bool
  MR_exit_now : Bool

/-- The values given by the initialisers at the top of `mercury_wrapper.c`
(lines 48-92); variables without an initialiser there are zero, false or
NULL, as C initialises objects of static storage duration. -/
def Globals.initial : Globals where
  heap_size := 4096
  detstack_size := 2048
  nondstack_size := 128
  solutions_heap_size := 1024
  global_heap_size := 1024
  trail_size := 128
  heap_zone_size := 16
  detstack_zone_size := 16
  nondstack_zone_size := 16
  solutions_heap_zone_size := 16
  global_heap_zone_size := 16
  trail_zone_size := 16
  pcache_size := 8192
  check_space := false
  benchmark_all_solns := false
  use_own_timer := false
  repeats := 1
  MR_num_threads := 1
  MR_time_profile_method := .MR_profile_user_plus_system_time
  progname := []
  mercury_argc := 0
  mercury_argv := []
  mercury_exit_status := 0
  MR_profiling := true
  program_entry_point := .null
  calldebug := false
  nondstackdebug := false
  detstackdebug := false
  heapdebug := false
  gotodebug := false
  sregdebug := false
  finaldebug := false
  tracedebug := false
  progdebug := false
  memdebug := false
  detaildebug := false
  MR_trace_enabled := false
  MR_trace_handler := .MR_TRACE_INTERNAL
  GC_quiet := false
  GC_dont_gc := false
  MR_exit_now := false

/-! ## The abstract machine driven by `interpreter_module` -/

/-- The abstract-machine registers and stacks that `do_interpreter` touches.
`redo_count` is instrumentation: the number of `redo()` invocations made by
`global_success`. -/
structure Machine where
  MR_hp : Nat
  MR_succip : Code
  MR_maxfr : Nat
  MR_curfr : Nat
  MR_sp : Nat
  detstack : Nat → Nat
  nondstack : Nat → Nat
  MR_stack_trace_bottom : Code
  time_profiling : Bool
  redo_count : Nat

/-- Modelled from the spec: `push` is a macro of mercury_stacks.h, which is not
under src/.  "Save ... onto the deterministic stack": the word is stored at
the deterministic stack pointer, which then moves up by one word. -/
def push (w : Nat) (s : Machine) : Machine :=
  { s with detstack := Function.update s.detstack s.MR_sp w, MR_sp := s.MR_sp + 1 }

/-- Modelled from the spec: `pop` is a macro of mercury_stacks.h, which is not
under src/.  The deterministic stack pointer moves down by one word and the
word it then points at is the result. -/
def pop (s : Machine) : Nat × Machine :=
  (s.detstack (s.MR_sp - 1), { s with MR_sp := s.MR_sp - 1 })

/-- Modelled from the spec: the number of words of a choice-point frame that
hold its fixed fields (failure continuation, previous frame, success
continuation, success frame); a constant of mercury_stacks.h. -/
def NONDET_FIXED_SIZE : Nat := 4

/-- Modelled from the spec: `mkframe` is a macro of mercury_stacks.h, which is
not under src/.  "Push a fresh Choice-Point Frame whose failure continuation
is the designated label": the frame is put on top of the non-deterministic
stack, `MR_maxfr` and `MR_curfr` point at it, and its fixed slots record the
failure continuation, the previous top frame, `MR_succip` and the caller's
frame. -/
def mkframe (numslots : Nat) (redoip : Code) (s : Machine) : Machine :=
  let prevfr := s.MR_maxfr
  let succfr := s.MR_curfr
  let fr := s.MR_maxfr + (NONDET_FIXED_SIZE + numslots)
  { s with
    MR_maxfr := fr
    MR_curfr := fr
    nondstack :=
      Function.update
        (Function.update
          (Function.update
            (Function.update s.nondstack fr redoip.toWord)
            (fr - 1) prevfr)
          (fr - 2) s.MR_succip.toWord)
        (fr - 3) succfr }

/-- The failure continuation stored in the frame at `fr`. -/
def redoip_slot (s : Machine) (fr : Nat) : Code :=
  Code.ofWord (s.nondstack fr)

/-- How a block of `interpreter_module` hands on control. -/
inductive Next
  | goto_label (l : Label)
  | goto (c : Code)
  | proceed (c : Code)
  | fatal_error (msg : String)
  deriving DecidableEq, Repr

/-- Modelled from the spec: `redo` is a macro of mercury_stacks.h, which is not
under src/.  "Resume execution at the next pending choice point": the top
frame becomes the current frame and control goes to its failure
continuation. -/
def redo (s : Machine) : Next × Machine :=
  (.goto (redoip_slot s s.MR_maxfr),
   { s with MR_curfr := s.MR_maxfr, redo_count := s.redo_count + 1 })

/-- The code of `interpreter_module`, lines 854-915, one block per label.  The
blocks under `MR_LOWLEVEL_DEBUG` only print and are left out.
`Next.goto_label` is `GOTO_LABEL` or falling through to the next label;
`Next.goto` is a jump through a code address (`noprof_call`, `redo`);
`Next.proceed` is `proceed()`, the jump to `MR_succip`. -/
def interpreter_module (b : Build) (g : Globals) : Label → Machine → Next × Machine
  | .do_interpreter, s =>
    let s := push s.MR_hp s
    let s := push s.MR_succip.toWord s
    let s := push s.MR_maxfr s
    let s := mkframe 1 (.label .global_fail) s
    if g.program_entry_point = .null then
      (.fatal_error "no program entry point supplied", s)
    else
      let s := { s with MR_stack_trace_bottom := .label .global_success }
      let s := { s with
        time_profiling := if b.PROFILE_TIME && g.MR_profiling then true else s.time_profiling }
      (.goto g.program_entry_point, { s with MR_succip := .label .global_success })
  | .global_success, s =>
    if g.benchmark_all_solns then redo s else (.goto_label .all_done, s)
  | .global_fail, s => (.goto_label .all_done, s)
  | .all_done, s =>
    let s := { s with
      time_profiling := if b.PROFILE_TIME && g.MR_profiling then false else s.time_profiling }
    let r := pop s
    let s := { r.2 with MR_maxfr := r.1 }
    let r := pop s
    let s := { r.2 with MR_succip := Code.ofWord r.1 }
    let r := pop s
    let s := { r.2 with MR_hp := r.1 }
    (.proceed s.MR_succip, s)

/-- Code outside this file (the user program reached through
`program_entry_point`, and whatever it calls): run from the address `a`, it
either hands control to a code address with a new machine state, or never
hands control on. -/
abbrev Program := Nat → Machine → Option (Code × Machine)

/-- What a run of the engine that started at `do_interpreter` comes to. -/
inductive Outcome
  | returned (s : Machine)
  | fatal (msg : String) (s : Machine)
  | wild_jump (s : Machine)
  | lost
  | out_of_fuel

/-- One transfer of control: the block at `pc` runs and names its successor,
or the run of the engine ends. -/
def step (b : Build) (g : Globals) (prog : Program) (pc : Code) (s : Machine) :
    Sum (Code × Machine) Outcome :=
  match pc with
  | .null => .inr (.wild_jump s)
  | .ext a =>
    match prog a s with
    | none => .inr .lost
    | some cs => .inl cs
  | .label l =>
    match interpreter_module b g l s with
    | (.goto_label l', s') => .inl (.label l', s')
    | (.goto c, s') => .inl (c, s')
    | (.proceed _, s') => .inr (.returned s')
    | (.fatal_error msg, s') => .inr (.fatal msg s')

/-- The position of the engine after `n` transfers of control from `(pc, s)`,
when the run has not ended before. -/
def arrive (b : Build) (g : Globals) (prog : Program) : Nat → Code → Machine → Option (Code × Machine)
  | 0, pc, s => some (pc, s)
  | n + 1, pc, s =>
    match step b g prog pc s with
    | .inl cs => arrive b g prog n cs.1 cs.2
    | .inr _ => none

/-- The run of the engine from `(pc, s)`, for at most `fuel` transfers of
control; it ends when `all_done` executes `proceed()`, at a fatal error, at a
jump to NULL, or when the program keeps control for ever. -/
def exec (b : Build) (g : Globals) (prog : Program) : Nat → Code → Machine → Outcome
  | 0, _, _ => .out_of_fuel
  | fuel + 1, pc, s =>
    match step b g prog pc s with
    | .inl cs => exec b g prog fuel cs.1 cs.2
    | .inr o => o

/-! ## Option processing -/

/-- One result of `getopt(argc, argv, "acC:d:D:P:pr:s:tT:xz:")`: the value it
returned and the string it left in `optarg`.  `getopt` belongs to the C
library, so `process_options` is given the results of its successive calls;
an option character that is not in the option string, or a missing argument,
is reported by `getopt` as the character `?`. -/
structure Opt where
  c : Char
  optarg : List Char

/-- The conversions of the C library function `sscanf` that `process_options`
uses: `lu` is `sscanf(str, "%lu", &size)`, `u` is `"%u"` and `d` is `"%d"`.
The result is `none` when the call does not return 1, and the converted value
otherwise. -/
structure Scanf where
  lu : List Char → Option Nat
  u : List Char → Option Nat
  d : List Char → Option Int

/-- How `process_options` ends, with the global variables at that point:
it returns, or it calls `usage()`, which prints a message and calls `exit(1)`,
or it calls `fatal_error`. -/
inductive Parse
  | ok (g : Globals)
  | usage (g : Globals)
  | fatal_error (msg : String) (g : Globals)

/-- The global variables when `process_options` ends. -/
def Parse.globals : Parse → Globals
  | .ok g => g
  | .usage g => g
  | .fatal_error _ g => g

/-- Whether `process_options` returned to its caller. -/
def Parse.accepted : Parse → Bool
  | .ok _ => true
  | _ => false

/-- Case `C` of the switch in `process_options` (lines 495-501). -/
def case_C (b : Build) (lib : Scanf) (optarg : List Char) (g : Globals) : Parse :=
  match lib.lu optarg with
  | none => .usage g
  | some size => .ok { g with pcache_size := (size * 1024) % 2 ^ b.ULONG_BITS }

/-- Case `d` of the switch in `process_options` (lines 503-549). -/
def case_d (b : Build) (optarg : List Char) (g : Globals) : Parse :=
  if optarg = ['b'] then
    .ok { g with nondstackdebug := true, use_own_timer := false }
  else if optarg = ['c'] then
    .ok { g with calldebug := true, use_own_timer := false }
  else if optarg = ['d'] then
    .ok { g with detaildebug := true, use_own_timer := false }
  else if optarg = ['g'] then
    .ok { g with gotodebug := true, use_own_timer := false }
  else if optarg = ['G'] then
    if b.CONSERVATIVE_GC then
      .ok { g with GC_quiet := false, use_own_timer := false }
    else
      .fatal_error "-dG: GC not enabled" g
  else if optarg = ['s'] then
    .ok { g with detstackdebug := true, use_own_timer := false }
  else if optarg = ['h'] then
    .ok { g with heapdebug := true, use_own_timer := false }
  else if optarg = ['f'] then
    .ok { g with finaldebug := true, use_own_timer := false }
  else if optarg = ['p'] then
    .ok { g with progdebug := true, use_own_timer := false }
  else if optarg = ['m'] then
    .ok { g with memdebug := true, use_own_timer := false }
  else if optarg = ['r'] then
    .ok { g with sregdebug := true, use_own_timer := false }
  else if optarg = ['t'] then
    .ok { g with tracedebug := true, use_own_timer := false }
  else if optarg = ['a'] then
    .ok { g with
      calldebug := true
      nondstackdebug := true
      detstackdebug := true
      heapdebug := true
      gotodebug := true
      sregdebug := true
      finaldebug := true
      tracedebug := true
      GC_quiet := if b.CONSERVATIVE_GC then false else g.GC_quiet
      use_own_timer := false }
  else
    .usage g

/-- Case `D` of the switch in `process_options` (lines 551-564);
`MR_trace_enabled` is assigned before `optarg` is looked at. -/
def case_D (b : Build) (optarg : List Char) (g : Globals) : Parse :=
  if optarg = ['i'] then
    .ok { g with MR_trace_enabled := true, MR_trace_handler := .MR_TRACE_INTERNAL }
  else if b.MR_USE_EXTERNAL_DEBUGGER && optarg = ['e'] then
    .ok { g with MR_trace_enabled := true, MR_trace_handler := .MR_TRACE_EXTERNAL }
  else
    .usage { g with MR_trace_enabled := true }

/-- Case `P` of the switch in `process_options` (lines 570-579); `sscanf`
stores the number in `MR_num_threads` before it is compared with 1. -/
def case_P (b : Build) (lib : Scanf) (optarg : List Char) (g : Globals) : Parse :=
  if b.MR_THREAD_SAFE then
    match lib.u optarg with
    | none => .usage g
    | some n =>
      if n < 1 then .usage { g with MR_num_threads := n }
      else .ok { g with MR_num_threads := n }
  else
    .ok g

/-- Case `r` of the switch in `process_options` (lines 581-585). -/
def case_r (lib : Scanf) (optarg : List Char) (g : Globals) : Parse :=
  match lib.d optarg with
  | none => .usage g
  | some n => .ok { g with repeats := n }

/-- Case `s` of the switch in `process_options` (lines 587-604); `optarg + 1`
is the tail of the string and `optarg[0]` its first character. -/
def case_s (b : Build) (lib : Scanf) (optarg : List Char) (g : Globals) : Parse :=
  match lib.lu optarg.tail with
  | none => .usage g
  | some size =>
    if optarg.head? = some 'h' then
      .ok { g with heap_size := size }
    else if optarg.head? = some 'd' then
      .ok { g with detstack_size := size }
    else if optarg.head? = some 'n' then
      .ok { g with nondstack_size := size }
    else if b.MR_USE_TRAIL && optarg.head? = some 't' then
      .ok { g with trail_size := size }
    else
      .usage g

/-- Case `t` of the switch in `process_options` (lines 606-616). -/
def case_t (g : Globals) : Parse :=
  .ok { g with
    use_own_timer := true
    calldebug := false
    nondstackdebug := false
    detstackdebug := false
    heapdebug := false
    gotodebug := false
    sregdebug := false
    finaldebug := false }

/-- Case `T` of the switch in `process_options` (lines 618-629). -/
def case_T (optarg : List Char) (g : Globals) : Parse :=
  if optarg = ['r'] then
    .ok { g with MR_time_profile_method := .MR_profile_real_time }
  else if optarg = ['v'] then
    .ok { g with MR_time_profile_method := .MR_profile_user_time }
  else if optarg = ['p'] then
    .ok { g with MR_time_profile_method := .MR_profile_user_plus_system_time }
  else
    .usage g

/-- Case `z` of the switch in `process_options` (lines 638-655). -/
def case_z (b : Build) (lib : Scanf) (optarg : List Char) (g : Globals) : Parse :=
  match lib.lu optarg.tail with
  | none => .usage g
  | some size =>
    if optarg.head? = some 'h' then
      .ok { g with heap_zone_size := size }
    else if optarg.head? = some 'd' then
      .ok { g with detstack_zone_size := size }
    else if optarg.head? = some 'n' then
      .ok { g with nondstack_zone_size := size }
    else if b.MR_USE_TRAIL && optarg.head? = some 't' then
      .ok { g with trail_zone_size := size }
    else
      .usage g

/-- The `switch (c)` of `process_options` (lines 484-660) for one result of
`getopt`; the cases `a`, `c`, `p`, `x` and the default are written out here.
-/
def process_option (b : Build) (lib : Scanf) (o : Opt) (g : Globals) : Parse :=
  if o.c = 'a' then .ok { g with benchmark_all_solns := true }
  else if o.c = 'c' then .ok { g with check_space := true }
  else if o.c = 'C' then case_C b lib o.optarg g
  else if o.c = 'd' then case_d b o.optarg g
  else if o.c = 'D' then case_D b o.optarg g
  else if o.c = 'p' then .ok { g with MR_profiling := false }
  else if o.c = 'P' then case_P b lib o.optarg g
  else if o.c = 'r' then case_r lib o.optarg g
  else if o.c = 's' then case_s b lib o.optarg g
  else if o.c = 't' then case_t g
  else if o.c = 'T' then case_T o.optarg g
  else if o.c = 'x' then
    .ok { g with GC_dont_gc := if b.CONSERVATIVE_GC then true else g.GC_dont_gc }
  else if o.c = 'z' then case_z b lib o.optarg g
  else .usage g

/-- The loop of `process_options` (lines 482-661) over the results of
`getopt`, until `getopt` returns EOF (the list is empty) or a case ends in
`usage()` or `fatal_error`. -/
def process_options (b : Build) (lib : Scanf) : List Opt → Globals → Parse
  | [], g => .ok g
  | o :: rest, g =>
    match process_option b lib o g with
    | .ok g' => process_options b lib rest g'
    | .usage g' => .usage g'
    | .fatal_error msg g' => .fatal_error msg g'

/-- The value of the leading decimal digits of a string, `acc` being the
value read so far. -/
def decimal_digits : List Char → Option Nat → Option Nat
  | [], acc => acc
  | c :: cs, acc =>
    if c.isDigit then decimal_digits cs (some (acc.getD 0 * 10 + (c.toNat - '0'.toNat)))
    else acc

/-- A C library used in the examples: its conversions read decimal digits, and
`%d` a minus sign before them; they fail on a string that does not start so. -/
def plain_scanf : Scanf where
  lu := fun str => decimal_digits str none
  u := fun str => decimal_digits str none
  d := fun str =>
    match str with
    | '-' :: rest => (decimal_digits rest none).map (fun n => - (n : Int))
    | _ => (decimal_digits str none).map (fun n => (n : Int))

/-- A build without optional features, with 64-bit `unsigned long` and two
tag bits. -/
def plain_build : Build where
  CONSERVATIVE_GC := false
  MR_NEED_INITIALIZATION_AT_START := false
  MR_THREAD_SAFE := false
  MR_USE_EXTERNAL_DEBUGGER := false
  MR_USE_TRAIL := false
  PROFILE_TIME := false
  TAGBITS := 2
  ULONG_BITS := 64

/-- A thread-safe build with the conservative collector and initialisation at
start, otherwise as `plain_build`. -/
def full_build : Build where
  CONSERVATIVE_GC := true
  MR_NEED_INITIALIZATION_AT_START := true
  MR_THREAD_SAFE := true
  MR_USE_EXTERNAL_DEBUGGER := false
  MR_USE_TRAIL := false
  PROFILE_TIME := false
  TAGBITS := 2
  ULONG_BITS := 64

/-! ## Startup, the main loop and termination -/

/-- The calls and assignments of `mercury_runtime_init`, `do_init_modules`,
`mercury_runtime_main` and `mercury_runtime_terminate` that are recorded, in
the order in which they happen. -/
inductive Event
  | save_regs_to_mem
  | GC_INIT
  | address_of_init_gc
  | GC_is_visible
  | GC_register_displacement (i : Nat)
  | process_args
  | process_environment_options
  | MR_trace_enabled_assigned (v : Bool)
  | address_of_init_modules
  | address_of_mercury_init_io
  | init_thread_stuff
  | init_thread
  | MR_exit_now_assigned (v : Bool)
  | create_thread
  | MR_prof_init
  | restore_transient_registers
  | save_registers
  | MR_trace_init
  | MR_library_initializer
  | save_context
  | MR_trace_start (enabled : Bool)
  | restore_regs_from_mem
  | restore_registers
  | call_engine
  | MR_trace_end
  | MR_library_finalizer
  | MR_trace_final
  | MR_prof_finish
  | pthread_cond_broadcast
  | terminate_engine
  deriving DecidableEq, Repr

/-- The functions that the file reaches through pointers, and the tracer and
profiler functions that other runtime modules define.  Each may read and write
the global variables.  The register, context, thread and collector primitives
(`save_registers`, `init_thread`, `create_thread`, `GC_INIT`, ...) are
recorded as events only: they act on engines, not on these variables. -/
structure Hooks where
  address_of_init_gc : Globals → Globals
  address_of_init_modules : Globals → Globals
  address_of_mercury_init_io : Globals → Globals
  MR_prof_init : Globals → Globals
  MR_trace_init : Globals → Globals
  MR_library_initializer : Globals → Globals
  MR_trace_end : Globals → Globals
  MR_library_finalizer : Globals → Globals
  MR_trace_final : Globals → Globals
  MR_prof_finish : Globals → Globals
  terminate_engine : Globals → Globals

/-- The state of the runtime outside the abstract machine: the global
variables, the record of events, and `done`, the static variable of
`do_init_modules`. -/
structure Runtime where
  g : Globals
  log : List Event
  done : Bool

/-- The runtime before `mercury_runtime_init`, with the program entry point
that the generated initialisation file has stored. -/
def Runtime.initial (entry : Code) : Runtime where
  g := { Globals.initial with program_entry_point := entry }
  log := []
  done := false

/-- Record an event that leaves the global variables alone. -/
def note (e : Event) (r : Runtime) : Runtime :=
  { r with log := r.log ++ [e] }

/-- Call a hook: record the event and let the hook act on the globals. -/
def call (e : Event) (f : Globals → Globals) (r : Runtime) : Runtime :=
  { r with g := f r.g, log := r.log ++ [e] }

/-- The function `do_init_modules` (lines 297-306). -/
def do_init_modules (h : Hooks) (r : Runtime) : Runtime :=
  if !r.done then
    { call .address_of_init_modules h.address_of_init_modules r with done := true }
  else
    r

/-- The function `process_args` (lines 429-435). -/
def process_args (argc : Int) (argv : List (List Char)) (r : Runtime) : Runtime :=
  note .process_args
    { r with g := { r.g with
        progname := argv.headD []
        mercury_argc := argc - 1
        mercury_argv := argv.tail } }

/-- How `mercury_runtime_init` ends. -/
inductive Boot
  | ready (r : Runtime)
  | usage_exit (r : Runtime)
  | fatal (msg : String) (r : Runtime)

/-- The runtime when `mercury_runtime_init` ends. -/
def Boot.runtime : Boot → Runtime
  | .ready r => r
  | .usage_exit r => r
  | .fatal _ r => r

/-- Whether `mercury_runtime_init` returned. -/
def Boot.is_ready : Boot → Bool
  | .ready _ => true
  | _ => false

/-- The loop `for (i = 1; i < (1 << TAGBITS); i++) GC_register_displacement(i)`
(lines 218-220): `k` iterations starting at `i`. -/
def register_displacements : Nat → Nat → Runtime → Runtime
  | 0, _, r => r
  | k + 1, i, r => register_displacements k (i + 1) (note (.GC_register_displacement i) r)

/-- The loop `for (i = 1; i < MR_num_threads; i++) create_thread(0)` (lines
258-259): `k` iterations, `MR_num_threads - 1` of them since `create_thread`
leaves `MR_num_threads` alone. -/
def create_threads : Nat → Runtime → Runtime
  | 0, r => r
  | k + 1, r => create_threads k (note .create_thread r)

/-- Modelled from the spec: `MR_trace_start` is a function of mercury_trace.c,
which is not under src/.  "Tracing state restored to its pre-bootstrap
value": it stores its argument in `MR_trace_enabled`. -/
def MR_trace_start (enabled : Bool) (r : Runtime) : Runtime :=
  note (.MR_trace_start enabled) { r with g := { r.g with MR_trace_enabled := enabled } }

/-- The part of `mercury_runtime_init` before option processing (lines
177-222). -/
def init_collector (b : Build) (h : Hooks) (r : Runtime) : Runtime :=
  let r := note .save_regs_to_mem r
  if b.CONSERVATIVE_GC then
    let r := { r with g := { r.g with GC_quiet := true } }
    let r := note .GC_INIT r
    let r := call .address_of_init_gc h.address_of_init_gc r
    let r := note .GC_is_visible r
    register_displacements (2 ^ b.TAGBITS - 1) 1 r
  else
    r

/-- The engine start-up of `mercury_runtime_init` (lines 250-261). -/
def start_engines (b : Build) (r : Runtime) : Runtime :=
  if b.MR_THREAD_SAFE then
    let r := note .init_thread_stuff r
    let r := note .init_thread r
    let r := note (.MR_exit_now_assigned false) { r with g := { r.g with MR_exit_now := false } }
    create_threads (r.g.MR_num_threads - 1) r
  else
    note .init_thread r

/-- The part of `mercury_runtime_init` after option processing (lines
240-293). -/
def init_after_options (b : Build) (h : Hooks) (r : Runtime) : Runtime :=
  let saved_trace_enabled := r.g.MR_trace_enabled
  let r := note (.MR_trace_enabled_assigned false) { r with g := { r.g with MR_trace_enabled := false } }
  let r := if b.MR_NEED_INITIALIZATION_AT_START then do_init_modules h r else r
  let r := call .address_of_mercury_init_io h.address_of_mercury_init_io r
  let r := start_engines b r
  let r := if r.g.MR_profiling then call .MR_prof_init h.MR_prof_init r else r
  let r := note .restore_transient_registers r
  let r := note .save_registers r
  let r := call .MR_trace_init h.MR_trace_init r
  let r := call .MR_library_initializer h.MR_library_initializer r
  let r := note .save_context r
  let r := MR_trace_start saved_trace_enabled r
  note .restore_regs_from_mem r

/-- The function `mercury_runtime_init` (lines 162-295).  `env` is the value of
`process_environment_options`: `none` when MERCURY_OPTIONS is not set, and
otherwise the results of `getopt` on the argument vector made from it. -/
def mercury_runtime_init (b : Build) (h : Hooks) (lib : Scanf) (argc : Int)
    (argv : List (List Char)) (env : Option (List Opt)) (r : Runtime) : Boot :=
  let r := init_collector b h r
  let r := process_args argc argv r
  let r := note .process_environment_options r
  match env with
  | none => .ready (init_after_options b h r)
  | some opts =>
    match process_options b lib opts r.g with
    | .ok g => .ready (init_after_options b h { r with g := g })
    | .usage g => .usage_exit { r with g := g }
    | .fatal_error msg g => .fatal msg { r with g := g }

/-- Modelled from the spec: `call_engine` is a function of mercury_engine.c,
which is not under src/.  It runs the abstract machine from the given entry
label until that code proceeds. -/
def call_engine (b : Build) (g : Globals) (prog : Program) (fuel : Nat) (entry : Label)
    (s : Machine) : Outcome :=
  exec b g prog fuel (.label entry) s

/-- The result of `mercury_runtime_main`: the number of `call_engine`
invocations made, and how the last of them, or the function, ended. -/
structure MainRun where
  engine_calls : Nat
  outcome : Outcome

/-- The loop `for (repcounter = 0; repcounter < repeats; repcounter++)
call_engine(ENTRY(do_interpreter))` (lines 720-724): `k` is the number of
iterations left, `calls` the number of calls made so far. -/
def repeat_engine (engine : Machine → Outcome) : Nat → Nat → Machine → MainRun
  | 0, calls, s => ⟨calls, .returned s⟩
  | k + 1, calls, s =>
    match engine s with
    | .returned s' => repeat_engine engine k (calls + 1) s'
    | o => ⟨calls + 1, o⟩

/-- The function `mercury_runtime_main` (lines 677-778), without its timing and
printing.  `repcounter` runs over the integers from 0 that are below
`repeats`, of which there are `repeats.toNat`. -/
def mercury_runtime_main (g : Globals) (engine : Machine → Outcome) (s : Machine) : MainRun :=
  repeat_engine engine g.repeats.toNat 0 s

/-- The function `mercury_runtime_terminate` (lines 923-959): the runtime it
leaves and the value it returns. -/
def mercury_runtime_terminate (b : Build) (h : Hooks) (r : Runtime) : Int × Runtime :=
  let r := note .save_regs_to_mem r
  let r := call .MR_trace_end h.MR_trace_end r
  let r := call .MR_library_finalizer h.MR_library_finalizer r
  let r := call .MR_trace_final h.MR_trace_final r
  let r := if r.g.MR_profiling then call .MR_prof_finish h.MR_prof_finish r else r
  let r :=
    if b.MR_THREAD_SAFE then
      note .pthread_cond_broadcast
        (note (.MR_exit_now_assigned true) { r with g := { r.g with MR_exit_now := true } })
    else
      r
  let r := call .terminate_engine h.terminate_engine r
  let r := note .restore_regs_from_mem r
  (r.g.mercury_exit_status, r)

/-- Hooks that leave every global variable as it is. -/
def idle_hooks : Hooks where
  address_of_init_gc := id
  address_of_init_modules := id
  address_of_mercury_init_io := id
  MR_prof_init := id
  MR_trace_init := id
  MR_library_initializer := id
  MR_trace_end := id
  MR_library_finalizer := id
  MR_trace_final := id
  MR_prof_finish := id
  terminate_engine := id

/-- A machine with empty stacks at address 0 and the return address `ext 0`
in `MR_succip`. -/
def Machine.initial : Machine where
  MR_hp := 0
  MR_succip := .ext 0
  MR_maxfr := 0
  MR_curfr := 0
  MR_sp := 0
  detstack := fun _ => 0
  nondstack := fun _ => 0
  MR_stack_trace_bottom := .null
  time_profiling := false
  redo_count := 0

/-- The property that C7 ascribes to the global variables after `-t`: every
debugging flag is off. -/
def all_diagnostics_off (g : Globals) : Prop :=
  g.calldebug = false ∧ g.nondstackdebug = false ∧ g.detstackdebug = false ∧
  g.heapdebug = false ∧ g.gotodebug = false ∧ g.sregdebug = false ∧
  g.finaldebug = false ∧ g.tracedebug = false ∧ g.progdebug = false ∧
  g.memdebug = false ∧ g.detaildebug = false

/-- A program that succeeds at once: it jumps to the success continuation
that its caller put in `MR_succip`. -/
def prog_succeed : Program := fun _ s => some (s.MR_succip, s)

/-- A program that fails at once: it resumes the top choice-point frame. -/
def prog_fail : Program := fun _ s =>
  some (redoip_slot s s.MR_maxfr, { s with MR_curfr := s.MR_maxfr })

/-- A program with solutions without end, like `repeat`: entered at address 0
it pushes a choice-point frame whose failure continuation is address 1 and
succeeds; resumed at any other address it succeeds again and keeps the
frame. -/
def prog_repeat : Program := fun a s =>
  if a = 0 then some (s.MR_succip, mkframe 0 (.ext 1) s) else some (s.MR_succip, s)

/-- The initial globals with a program entry point at address 0. -/
def globals_one_soln : Globals :=
  { Globals.initial with program_entry_point := .ext 0 }

/-- As `globals_one_soln`, after the option `-a`. -/
def globals_all_solns : Globals :=
  { Globals.initial with program_entry_point := .ext 0, benchmark_all_solns := true }

/-- The first occurrence of `a` in the record comes before the first
occurrence of `b`. -/
def precedes (a b : Event) (log : List Event) : Prop :=
  a ∈ log ∧ b ∈ log ∧ log.indexOf a < log.indexOf b

/-- The function `f` does not write `mercury_exit_status`. -/
def keeps_exit_status (f : Globals → Globals) : Prop :=
  ∀ g, (f g).mercury_exit_status = g.mercury_exit_status

/-- The message of the fatal error in which a run of the engine ended. -/
def Outcome.fatal_message : Outcome → Option String
  | .fatal msg _ => some msg
  | _ => none

/-- Modelled from the spec: `isspace` belongs to the C library, which is not
under src/; these are the characters that are whitespace in the C locale
(space, tab, newline, vertical tab, form feed, carriage return). -/
def isspace (c : Char) : Bool :=
  c = ' ' || c = '\t' || c = '\n' || c = Char.ofNat 11 || c = Char.ofNat 12 || c = '\r'

/-- The double quote character. -/
def DQUOTE : Char := Char.ofNat 34

/-- The backslash character. -/
def BACKSLASH : Char := Char.ofNat 92

/-- How a loop of `make_argv`, or the function, ends: normally with a value,
in `fatal_error`, by reading the character after the terminating NUL of the
string (where the behaviour of the C program is undefined), or because the
fuel given to the unbounded loop of the first pass ran out. -/
inductive Scan (α : Type)
  | ok (a : α)
  | fatal_error (msg : String)
  | overrun
  | out_of_fuel

/-- The value with which a loop or function ended normally. -/
def Scan.value? {α : Type} : Scan α → Option α
  | .ok a => some a
  | _ => none

/-- Whether the run read past the terminating NUL. -/
def Scan.is_overrun {α : Type} : Scan α → Bool
  | .overrun => true
  | _ => false

/-- Whether the run ended in `fatal_error`. -/
def Scan.is_fatal {α : Type} : Scan α → Bool
  | .fatal_error _ => true
  | _ => false

/-- The message of the `fatal_error` call at lines 349-352. -/
def unterminated_message : String :=
  "Mercury runtime: unterminated quoted string\nin MERCURY_OPTIONS environment variable\n"

/-- The test `s == '\0'` of line 348.  It compares the pointer `s` itself with
the null pointer constant, and `s` points into the string, so the test is
false wherever `s` stands.  The pointer is modelled by the characters from
`*s` up to the terminating NUL, the empty list standing for `*s == '\0'`. -/
def pointer_is_null (_s : List Char) : Bool := false

/-- The loop `while (isspace((unsigned char) *s)) s++` (lines 332-334 and
384-386). -/
def skip_space : List Char → List Char
  | [] => []
  | c :: rest => if isspace c then skip_space rest else c :: rest

/-- The loop of lines 347-357 (first pass, quoted argument): from `s`, with
`args_len` = `n`, to the position of the closing quote.  At the terminating
NUL the loop does not stop (NUL is not a quote and the test of line 348 is
false) and `s++` leaves the string. -/
def count_quoted : List Char → Nat → Scan (List Char × Nat)
  | [], _ => if pointer_is_null [] then .fatal_error unterminated_message else .overrun
  | c :: rest, n =>
    if c = DQUOTE then .ok (c :: rest, n)
    else if pointer_is_null (c :: rest) then .fatal_error unterminated_message
    else if c = BACKSLASH then
      match rest with
      | [] => .overrun
      | _ :: rest' => count_quoted rest' (n + 1)
    else count_quoted rest (n + 1)

/-- The loop of lines 361-365 (first pass, ordinary argument). -/
def count_plain : List Char → Nat → Scan (List Char × Nat)
  | [], n => .ok ([], n)
  | c :: rest, n =>
    if isspace c then .ok (c :: rest, n)
    else if c = BACKSLASH then
      match rest with
      | [] => .overrun
      | _ :: rest' => count_plain rest' (n + 1)
    else count_plain rest (n + 1)

/-- The loop `for (;;)` of lines 330-368 (first pass), which returns `argc` and
`args_len`; `fuel` bounds the number of its iterations. -/
def first_pass : Nat → List Char → Nat → Nat → Scan (Nat × Nat)
  | 0, _, _, _ => .out_of_fuel
  | fuel + 1, s, argc, args_len =>
    match skip_space s with
    | [] => .ok (argc, args_len)
    | c :: rest =>
      if c = DQUOTE then
        match count_quoted rest args_len with
        | .ok r => first_pass fuel r.1.tail (argc + 1) (r.2 + 1)
        | .fatal_error msg => .fatal_error msg
        | .overrun => .overrun
        | .out_of_fuel => .out_of_fuel
      else
        match count_plain (c :: rest) args_len with
        | .ok r => first_pass fuel r.1 (argc + 1) (r.2 + 1)
        | .fatal_error msg => .fatal_error msg
        | .overrun => .overrun
        | .out_of_fuel => .out_of_fuel

/-- The loop of lines 400-404 (second pass, quoted argument): `d` holds the
characters stored since `argv[i] = d`.  At the terminating NUL the loop
copies it and `s++` leaves the string. -/
def copy_quoted : List Char → List Char → Scan (List Char × List Char)
  | [], _ => .overrun
  | c :: rest, d =>
    if c = DQUOTE then .ok (c :: rest, d)
    else if c = BACKSLASH then
      match rest with
      | [] => .overrun
      | c' :: rest' => copy_quoted rest' (d ++ [c'])
    else copy_quoted rest (d ++ [c])

/-- The loop of lines 408-412 (second pass, ordinary argument). -/
def copy_plain : List Char → List Char → Scan (List Char × List Char)
  | [], d => .ok ([], d)
  | c :: rest, d =>
    if isspace c then .ok (c :: rest, d)
    else if c = BACKSLASH then
      match rest with
      | [] => .overrun
      | c' :: rest' => copy_plain rest' (d ++ [c'])
    else copy_plain rest (d ++ [c])

/-- The loop `for (i = 0; i < argc; i++)` of lines 382-415 (second pass): `k`
is `argc - i`, and `argv` holds the arguments stored so far, each being the
characters between `argv[i] = d` and the NUL of line 414.  When the string
ends early (line 392) the loop stops at the NULL entry. -/
def second_pass : Nat → List Char → List (List Char) → Scan (List (List Char))
  | 0, _, argv => .ok argv
  | k + 1, s, argv =>
    match skip_space s with
    | [] => .ok argv
    | c :: rest =>
      if c = DQUOTE then
        match copy_quoted rest [] with
        | .ok r => second_pass k r.1.tail (argv ++ [r.2])
        | .fatal_error msg => .fatal_error msg
        | .overrun => .overrun
        | .out_of_fuel => .out_of_fuel
      else
        match copy_plain (c :: rest) [] with
        | .ok r => second_pass k r.1 (argv ++ [r.2])
        | .fatal_error msg => .fatal_error msg
        | .overrun => .overrun
        | .out_of_fuel => .out_of_fuel

/-- What `make_argv` hands back through its three pointers; `args_len` is the
number of bytes it allocated for `args`. -/
structure MadeArgv where
  args_len : Nat
  argv : List (List Char)
  argc : Nat

/-- The function `make_argv` (lines 314-420) on the characters of `string`
before its terminating NUL.  Every iteration of the first pass that does not
end it moves `s` forward, so one more iteration than the string has
characters is allowed for. -/
def make_argv (string : List Char) : Scan MadeArgv :=
  match first_pass (string.length + 1) string 0 0 with
  | .ok r =>
    match second_pass r.1 string [] with
    | .ok argv => .ok ⟨r.2, argv, r.1⟩
    | .fatal_error msg => .fatal_error msg
    | .overrun => .overrun
    | .out_of_fuel => .out_of_fuel
  | .fatal_error msg => .fatal_error msg
  | .overrun => .overrun
  | .out_of_fuel => .out_of_fuel

/-- Reference tokenizer, quoted argument: the characters after the opening
quote up to the next unescaped double quote, a backslash being dropped and the
character after it kept whatever it is; with them, what follows the closing
quote.  There is no result when no unescaped quote follows. -/
def reference_quoted : List Char → Option (List Char × List Char)
  | [] => none
  | c :: rest =>
    if c = DQUOTE then some ([], rest)
    else if c = BACKSLASH then
      match rest with
      | [] => none
      | c' :: rest' => (reference_quoted rest').map (fun r => (c' :: r.1, r.2))
    else (reference_quoted rest).map (fun r => (c :: r.1, r.2))

/-- Reference tokenizer, ordinary argument: the characters up to the next
unescaped whitespace or the end of the string, a backslash being dropped and
the character after it kept; with them, what follows.  There is no result
when a backslash is the last character. -/
def reference_plain : List Char → Option (List Char × List Char)
  | [] => some ([], [])
  | c :: rest =>
    if isspace c then some ([], c :: rest)
    else if c = BACKSLASH then
      match rest with
      | [] => none
      | c' :: rest' => (reference_plain rest').map (fun r => (c' :: r.1, r.2))
    else (reference_plain rest).map (fun r => (c :: r.1, r.2))

/-- Reference tokenizer: the arguments of a string, in order.  Whitespace
before an argument is dropped; an argument that begins with a double quote is
a quoted argument and ends at its closing quote; any other is an ordinary
argument.  `fuel` bounds the number of arguments looked for. -/
def reference_args : Nat → List Char → Option (List (List Char))
  | 0, _ => none
  | fuel + 1, s =>
    match s.dropWhile isspace with
    | [] => some []
    | c :: rest =>
      if c = DQUOTE then
        match reference_quoted rest with
        | none => none
        | some r => (reference_args fuel r.2).map (fun args => r.1 :: args)
      else
        match reference_plain (c :: rest) with
        | none => none
        | some r => (reference_args fuel r.2).map (fun args => r.1 :: args)

/-- Reference tokenizer on a whole string: there is a result exactly when
every argument-opening double quote has a closing one and no backslash lacks
a character after it. -/
def reference_argv (string : List Char) : Option (List (List Char)) :=
  reference_args (string.length + 1) string

/-- The string `x "a b" c\ d` -/
def sample_options : List Char :=
  ['x', ' ', DQUOTE, 'a', ' ', 'b', DQUOTE, ' ', 'c', BACKSLASH, ' ', 'd']

/-- The string `x "abc`, whose quoted argument is not closed. -/
def unterminated_options : List Char :=
  ['x', ' ', DQUOTE, 'a', 'b', 'c']

/-! ## Theorems -/

/-! ### Helper lemmas -/

theorem process_options_append (b : Build) (lib : Scanf) (pre post : List Opt) (g g1 : Globals)
    (h : process_options b lib pre g = .ok g1) :
    process_options b lib (pre ++ post) g = process_options b lib post g1 := by
  induction pre generalizing g with
  | nil =>
    simp only [process_options] at h
    cases h
    rfl
  | cons o rest ih =>
    simp only [process_options, List.cons_append] at h ⊢
    cases hp : process_option b lib o g with
    | ok g2 =>
      rw [hp] at h
      exact ih g2 h
    | usage g2 => rw [hp] at h; cases h
    | fatal_error msg g2 => rw [hp] at h; cases h

theorem do_init_modules_of_done (h : Hooks) (r : Runtime) (hd : r.done = true) :
    do_init_modules h r = r := by
  simp [do_init_modules, hd]

theorem do_init_modules_done (h : Hooks) (r : Runtime) : (do_init_modules h r).done = true := by
  unfold do_init_modules
  cases hd : r.done
  · simp [call]
  · simpa using hd

theorem do_init_modules_iterate (h : Hooks) (r : Runtime) (n : Nat) :
    (do_init_modules h)^[n + 1] r = do_init_modules h r := by
  induction n with
  | zero => rfl
  | succ k ih =>
    rw [Function.iterate_succ_apply', ih]
    exact do_init_modules_of_done h _ (do_init_modules_done h r)

/-! ### C10 -/

/-- C10: starting with the static flag `done` unset, `n >= 1` consecutive calls
of `do_init_modules` leave the runtime exactly as the first call leaves it:
the collaborator `address_of_init_modules` has been invoked once, by the first
call (one event added to the record, its effect applied once to the globals,
`done` set), and a call made after any positive number of calls changes
nothing. -/
theorem do_init_modules_idempotent (h : Hooks) (r : Runtime) (n : Nat) (hn : 1 ≤ n)
    (hdone : r.done = false) :
    (do_init_modules h r).log = r.log ++ [Event.address_of_init_modules] ∧
    (do_init_modules h r).g = h.address_of_init_modules r.g ∧
    (do_init_modules h)^[n] r = do_init_modules h r ∧
    ((do_init_modules h)^[n] r).log.count Event.address_of_init_modules
      = r.log.count Event.address_of_init_modules + 1 ∧
    do_init_modules h ((do_init_modules h)^[n] r) = (do_init_modules h)^[n] r := by
  obtain ⟨k, rfl⟩ : ∃ k, n = k + 1 := ⟨n - 1, by omega⟩
  have hfirst : (do_init_modules h r).log = r.log ++ [Event.address_of_init_modules] := by
    simp [do_init_modules, hdone, call]
  refine ⟨hfirst, ?_, do_init_modules_iterate h r k, ?_, ?_⟩
  · simp [do_init_modules, hdone, call]
  · rw [do_init_modules_iterate, hfirst]
    simp
  · rw [do_init_modules_iterate]
    exact do_init_modules_of_done h _ (do_init_modules_done h r)

/-- Witness of C10: three calls from the initial runtime. -/
theorem do_init_modules_idempotent_witness :
    (1 ≤ 3 ∧ (Runtime.initial Code.null).done = false) ∧
    ((do_init_modules idle_hooks)^[3] (Runtime.initial Code.null)).log.count
        Event.address_of_init_modules
      = (Runtime.initial Code.null).log.count Event.address_of_init_modules + 1 :=
  ⟨⟨by decide, rfl⟩,
   (do_init_modules_idempotent idle_hooks (Runtime.initial Code.null) 3 (by decide) rfl).2.2.2.1⟩

/-! ### C9 -/

/-- C9 (the code at the failing input): with MERCURY_OPTIONS holding `-C 8`,
`process_options` returns with `pcache_size` = 8 * 1024 = 8192, not 8: case
`C` multiplies by 1024 at once, whereas the comment at lines 64-66 says the
variable is in kilobytes and multiplied later, and case `s` stores the number
it reads (`-sh8` leaves `heap_size` = 8) unmultiplied. -/
theorem pcache_size_scaled_at_option :
    (process_options plain_build plain_scanf [⟨'C', ['8']⟩] Globals.initial).accepted = true ∧
    (process_options plain_build plain_scanf [⟨'C', ['8']⟩] Globals.initial).globals.pcache_size
      = 8 * 1024 ∧
    (process_options plain_build plain_scanf [⟨'C', ['8']⟩] Globals.initial).globals.pcache_size
      ≠ 8 ∧
    (process_options plain_build plain_scanf [⟨'s', ['h', '8']⟩] Globals.initial).globals.heap_size
      = 8 ∧
    Globals.initial.pcache_size = 8192 := by
  decide

/-! ### C7 -/

/-- C7 (counterexample): after `-dp -t` the flag `progdebug` is still set, so
not every debugging flag is off after `-t`. -/
theorem own_timer_keeps_progdebug :
    (process_options plain_build plain_scanf [⟨'d', ['p']⟩, ⟨'t', []⟩] Globals.initial).accepted
      = true ∧
    ¬ all_diagnostics_off
      (process_options plain_build plain_scanf [⟨'d', ['p']⟩, ⟨'t', []⟩] Globals.initial).globals := by
  refine ⟨by decide, ?_⟩
  intro h
  have h9 := h.2.2.2.2.2.2.2.2.1
  revert h9
  decide

/-- C7 (amended): whatever accepted options precede it, processing `-t` is
accepted, sets `use_own_timer`, clears the seven flags `calldebug`,
`nondstackdebug`, `detstackdebug`, `heapdebug`, `gotodebug`, `sregdebug` and
`finaldebug`, and leaves `progdebug`, `memdebug` and `detaildebug` as the
preceding options left them. -/
theorem own_timer_clears_seven (b : Build) (lib : Scanf) (pre : List Opt) (arg : List Char)
    (g g1 : Globals) (hpre : process_options b lib pre g = .ok g1) :
    ∃ g2, process_options b lib (pre ++ [⟨'t', arg⟩]) g = .ok g2 ∧
      g2.use_own_timer = true ∧
      g2.calldebug = false ∧ g2.nondstackdebug = false ∧ g2.detstackdebug = false ∧
      g2.heapdebug = false ∧ g2.gotodebug = false ∧ g2.sregdebug = false ∧
      g2.finaldebug = false ∧
      g2.progdebug = g1.progdebug ∧ g2.memdebug = g1.memdebug ∧
      g2.detaildebug = g1.detaildebug := by
  rw [process_options_append b lib pre _ g g1 hpre]
  simp [process_options, process_option, case_t]

/-- Witness of C7 (amended): `-dp -dc -t`. -/
theorem own_timer_clears_seven_witness :
    process_options plain_build plain_scanf [⟨'d', ['p']⟩, ⟨'d', ['c']⟩] Globals.initial
      = .ok { Globals.initial with progdebug := true, calldebug := true } ∧
    ∃ g2, process_options plain_build plain_scanf
        ([⟨'d', ['p']⟩, ⟨'d', ['c']⟩] ++ [⟨'t', []⟩]) Globals.initial = .ok g2 ∧
      g2.use_own_timer = true ∧
      g2.calldebug = false ∧ g2.nondstackdebug = false ∧ g2.detstackdebug = false ∧
      g2.heapdebug = false ∧ g2.gotodebug = false ∧ g2.sregdebug = false ∧
      g2.finaldebug = false ∧
      g2.progdebug = true ∧ g2.memdebug = false ∧ g2.detaildebug = false :=
  ⟨rfl, own_timer_clears_seven plain_build plain_scanf [⟨'d', ['p']⟩, ⟨'d', ['c']⟩] []
    Globals.initial { Globals.initial with progdebug := true, calldebug := true } rfl⟩

/-! ### C6 -/

theorem ite_cases {α : Type} {c : Prop} [Decidable c] {x y r : α}
    (h : (if c then x else y) = r) : x = r ∨ y = r := by
  by_cases hc : c
  · rw [if_pos hc] at h
    exact Or.inl h
  · rw [if_neg hc] at h
    exact Or.inr h

theorem repeat_engine_count (engine : Machine → Outcome)
    (hret : ∀ s, ∃ s', engine s = .returned s') (k calls : Nat) (s : Machine) :
    (repeat_engine engine k calls s).engine_calls = calls + k := by
  induction k generalizing calls s with
  | zero => rfl
  | succ k ih =>
    obtain ⟨s', hs'⟩ := hret s
    simp only [repeat_engine, hs']
    rw [ih]
    omega

/-- C8 (counterexample): `-r 0` is accepted and leaves `repeats` = 0, which is
below 1, and `mercury_runtime_main` then makes no call of the engine. -/
theorem repeats_zero_accepted :
    (process_options plain_build plain_scanf [⟨'r', ['0']⟩] Globals.initial).accepted = true ∧
    (process_options plain_build plain_scanf [⟨'r', ['0']⟩] Globals.initial).globals.repeats
      = 0 ∧
    ¬ (1 ≤ (process_options plain_build plain_scanf [⟨'r', ['0']⟩]
        Globals.initial).globals.repeats) ∧
    (mercury_runtime_main
        (process_options plain_build plain_scanf [⟨'r', ['0']⟩] Globals.initial).globals
        (call_engine plain_build globals_one_soln prog_succeed 4 .do_interpreter)
        Machine.initial).engine_calls = 0 := by
  decide

/-- C8 (amended): the repeat count is an integer with default 1; an accepted
`-r n` leaves `repeats` equal to whatever integer `n` the conversion `%d`
delivers, zero and negative numbers included; and `mercury_runtime_main`, when
every call of the engine returns, calls the engine exactly `max repeats 0`
times, which is at least once exactly when `repeats >= 1`. -/
theorem repeats_engine_calls (b : Build) (lib : Scanf) (pre : List Opt) (arg : List Char)
    (n : Int) (g g1 : Globals) (engine : Machine → Outcome) (s : Machine)
    (hpre : process_options b lib pre g = .ok g1) (hscan : lib.d arg = some n)
    (hret : ∀ s, ∃ s', engine s = .returned s') :
    Globals.initial.repeats = 1 ∧
    (∃ g2, process_options b lib (pre ++ [⟨'r', arg⟩]) g = .ok g2 ∧ g2.repeats = n ∧
      (mercury_runtime_main g2 engine s).engine_calls = n.toNat ∧
      (1 ≤ (mercury_runtime_main g2 engine s).engine_calls ↔ 1 ≤ n)) ∧
    (mercury_runtime_main g1 engine s).engine_calls = g1.repeats.toNat := by
  have hcalls : ∀ g : Globals, (mercury_runtime_main g engine s).engine_calls = g.repeats.toNat := by
    intro g
    unfold mercury_runtime_main
    rw [repeat_engine_count engine hret]
    omega
  refine ⟨rfl, ⟨{ g1 with repeats := n }, ?_, rfl, hcalls _, ?_⟩, hcalls g1⟩
  · rw [process_options_append b lib pre _ g g1 hpre]
    simp [process_options, process_option, case_r, hscan]
  · rw [hcalls]
    show 1 ≤ n.toNat ↔ 1 ≤ n
    omega

/-- Witness of C8 (amended): `-a -r 3` with the engine running the program
that succeeds at once; `-r 3` is read after `-a` was accepted, and the engine
is called three times. -/
theorem repeats_engine_calls_witness :
    (process_options plain_build plain_scanf [⟨'c', []⟩] globals_one_soln
        = .ok { globals_one_soln with check_space := true } ∧
     plain_scanf.d ['3'] = some 3 ∧
     ∀ s, ∃ s', call_engine plain_build globals_one_soln prog_succeed 4 .do_interpreter s
        = .returned s') ∧
    ∃ g2, process_options plain_build plain_scanf ([⟨'c', []⟩] ++ [⟨'r', ['3']⟩])
        globals_one_soln = .ok g2 ∧ g2.repeats = 3 ∧
      (mercury_runtime_main g2
        (call_engine plain_build globals_one_soln prog_succeed 4 .do_interpreter)
        Machine.initial).engine_calls = (3 : Int).toNat ∧
      (1 ≤ (mercury_runtime_main g2
        (call_engine plain_build globals_one_soln prog_succeed 4 .do_interpreter)
        Machine.initial).engine_calls ↔ 1 ≤ (3 : Int)) :=
  ⟨⟨rfl, by decide, fun _ => ⟨_, rfl⟩⟩,
   (repeats_engine_calls plain_build plain_scanf [⟨'c', []⟩] ['3'] 3 globals_one_soln
      { globals_one_soln with check_space := true }
      (call_engine plain_build globals_one_soln prog_succeed 4 .do_interpreter)
      Machine.initial rfl (by decide) (fun _ => ⟨_, rfl⟩)).2.1⟩

/-! ### The interpreter: helper lemmas -/

theorem exec_of_arrive (b : Build) (g : Globals) (prog : Program) (n m : Nat)
    (pc pc' : Code) (s s' : Machine) (h : arrive b g prog n pc s = some (pc', s')) :
    exec b g prog (n + m) pc s = exec b g prog m pc' s' := by
  induction n generalizing pc s with
  | zero =>
    simp only [arrive, Option.some.injEq, Prod.mk.injEq] at h
    obtain ⟨rfl, rfl⟩ := h
    simp
  | succ k ih =>
    rw [Nat.succ_add]
    simp only [arrive] at h
    simp only [exec]
    cases hs : step b g prog pc s with
    | inl cs =>
      rw [hs] at h
      exact ih _ _ h
    | inr o =>
      rw [hs] at h
      cases h

theorem do_interpreter_sp (b : Build) (g : Globals) (s : Machine) :
    (interpreter_module b g .do_interpreter s).2.MR_sp = s.MR_sp + 3 := by
  simp only [interpreter_module, push, mkframe]
  split <;> rfl

theorem do_interpreter_detstack (b : Build) (g : Globals) (s : Machine) :
    (interpreter_module b g .do_interpreter s).2.detstack s.MR_sp = s.MR_hp ∧
    (interpreter_module b g .do_interpreter s).2.detstack (s.MR_sp + 1) = s.MR_succip.toWord ∧
    (interpreter_module b g .do_interpreter s).2.detstack (s.MR_sp + 2) = s.MR_maxfr := by
  have h1 : s.MR_sp ≠ s.MR_sp + 1 := by omega
  have h2 : s.MR_sp ≠ s.MR_sp + 1 + 1 := by omega
  have h3 : s.MR_sp + 1 ≠ s.MR_sp + 1 + 1 := by omega
  simp only [interpreter_module, push, mkframe]
  split <;> simp [Function.update_apply, h1, h2, h3]

theorem do_interpreter_step (b : Build) (g : Globals) (prog : Program) (s : Machine)
    (hentry : g.program_entry_point ≠ .null) :
    step b g prog (.label .do_interpreter) s
      = .inl (g.program_entry_point, (interpreter_module b g .do_interpreter s).2) := by
  simp only [step, interpreter_module, if_neg hentry]

theorem Code.ofWord_toWord (c : Code) : Code.ofWord c.toWord = c := by
  cases c with
  | null => rfl
  | label l => cases l <;> rfl
  | ext a => rfl

theorem all_done_exec (b : Build) (g : Globals) (prog : Program) (s : Machine) (fuel : Nat) :
    ∃ sf, exec b g prog (fuel + 1) (.label .all_done) s = .returned sf ∧
      sf.MR_maxfr = s.detstack (s.MR_sp - 1) ∧
      sf.MR_succip = Code.ofWord (s.detstack (s.MR_sp - 1 - 1)) ∧
      sf.MR_hp = s.detstack (s.MR_sp - 1 - 1 - 1) ∧
      sf.MR_sp = s.MR_sp - 1 - 1 - 1 ∧
      sf.redo_count = s.redo_count := by
  exact ⟨_, rfl, rfl, rfl, rfl, rfl, rfl⟩

theorem label_step (b : Build) (g : Globals) (prog : Program) (l l' : Label) (s s' : Machine)
    (h : interpreter_module b g l s = (.goto_label l', s')) :
    step b g prog (.label l) s = .inl (.label l', s') := by
  simp only [step, h]

theorem exec_repeat_never_returns (b : Build) (fuel : Nat) (pc : Code) (s : Machine)
    (hsucc : s.MR_succip = .label .global_success)
    (hredo : redoip_slot s s.MR_maxfr = .ext 1)
    (hpc : pc = .label .global_success ∨ pc = .ext 1) (sf : Machine) :
    exec b globals_all_solns prog_repeat fuel pc s ≠ .returned sf := by
  induction fuel generalizing pc s with
  | zero => simp [exec]
  | succ k ih =>
    rcases hpc with rfl | rfl
    · have hstep : step b globals_all_solns prog_repeat (.label .global_success) s
          = .inl (.ext 1, { s with MR_curfr := s.MR_maxfr, redo_count := s.redo_count + 1 }) := by
        simp only [step, interpreter_module, globals_all_solns, redo, hredo, if_true]
      simp only [exec, hstep]
      exact ih _ _ hsucc hredo (Or.inr rfl)
    · have hstep : step b globals_all_solns prog_repeat (.ext 1) s
          = .inl (.label .global_success, s) := by
        simp [step, prog_repeat, hsucc]
      simp only [exec, hstep]
      exact ih _ _ hsucc hredo (Or.inl rfl)

/-! ### C1 -/

/-- C1 (counterexample): in all-solutions mode, with the entry point set to a
program that every time it runs hands control to its success continuation
(which `do_interpreter` made `global_success`) and never touches the
deterministic stack or its pointer, `do_interpreter` does not return, whatever
the number of transfers of control allowed: `global_success` resumes the
program's choice point each time. -/
theorem all_solutions_of_repeat_never_return :
    globals_all_solns.program_entry_point ≠ Code.null ∧
    (∀ a s, ∃ s', prog_repeat a s = some (s.MR_succip, s') ∧ s'.MR_sp = s.MR_sp ∧
      s'.detstack = s.detstack ∧ s'.MR_succip = s.MR_succip) ∧
    (interpreter_module plain_build globals_all_solns .do_interpreter Machine.initial).2.MR_succip
      = Code.label .global_success ∧
    ¬ ∃ fuel sf, exec plain_build globals_all_solns prog_repeat fuel
        (.label .do_interpreter) Machine.initial = .returned sf := by
  refine ⟨by decide, ?_, rfl, ?_⟩
  · intro a s
    by_cases ha : a = 0
    · exact ⟨mkframe 0 (.ext 1) s, by simp [prog_repeat, ha], rfl, rfl, rfl⟩
    · exact ⟨s, by simp [prog_repeat, ha], rfl, rfl, rfl⟩
  · rintro ⟨fuel, sf, h⟩
    match fuel, h with
    | 0, h => simp [exec] at h
    | 1, h => exact absurd h (by simp [exec, step, interpreter_module, globals_all_solns])
    | k + 2, h =>
      have h1 : exec plain_build globals_all_solns prog_repeat (k + 2)
          (.label .do_interpreter) Machine.initial
          = exec plain_build globals_all_solns prog_repeat k (.label .global_success)
              (mkframe 0 (.ext 1)
                (interpreter_module plain_build globals_all_solns .do_interpreter
                  Machine.initial).2) := rfl
      rw [h1] at h
      exact exec_repeat_never_returns plain_build k (.label .global_success)
        (mkframe 0 (.ext 1)
          (interpreter_module plain_build globals_all_solns .do_interpreter Machine.initial).2)
        rfl (by decide) (Or.inl rfl) sf h

/-- C1 (amended): when the program entry point is set and control, after the
program was entered, arrives at `global_fail`, or at `global_success` in
single-solution mode, with the deterministic stack pointer where
`do_interpreter` left it and the three words saved below it unchanged, then
`do_interpreter` reaches `all_done` and returns with `MR_hp`, `MR_succip` and
`MR_maxfr` equal to their values on entry and the deterministic stack pointer
back at its entry value; the three were pushed in the order hp, succip,
maxfr. -/
theorem do_interpreter_restores (b : Build) (g : Globals) (prog : Program) (s0 s1 : Machine)
    (n : Nat) (l : Label)
    (hentry : g.program_entry_point ≠ .null)
    (harrive : arrive b g prog n g.program_entry_point
      (interpreter_module b g .do_interpreter s0).2 = some (.label l, s1))
    (hl : l = .global_fail ∨ (l = .global_success ∧ g.benchmark_all_solns = false))
    (hsp : s1.MR_sp = (interpreter_module b g .do_interpreter s0).2.MR_sp)
    (hslots : ∀ i, i < 3 → s1.detstack (s0.MR_sp + i)
      = (interpreter_module b g .do_interpreter s0).2.detstack (s0.MR_sp + i)) :
    ((interpreter_module b g .do_interpreter s0).2.detstack s0.MR_sp = s0.MR_hp ∧
     (interpreter_module b g .do_interpreter s0).2.detstack (s0.MR_sp + 1)
       = s0.MR_succip.toWord ∧
     (interpreter_module b g .do_interpreter s0).2.detstack (s0.MR_sp + 2) = s0.MR_maxfr) ∧
    ∃ fuel sf, exec b g prog fuel (.label .do_interpreter) s0 = .returned sf ∧
      sf.MR_hp = s0.MR_hp ∧ sf.MR_succip = s0.MR_succip ∧ sf.MR_maxfr = s0.MR_maxfr ∧
      sf.MR_sp = s0.MR_sp := by
  have hpushed := do_interpreter_detstack b g s0
  refine ⟨hpushed, ?_⟩
  rw [do_interpreter_sp] at hsp
  have hall : exec b g prog (n + 2 + 1) (.label .do_interpreter) s0
      = exec b g prog 1 (.label .all_done) s1 := by
    have h0 : exec b g prog (n + 2 + 1) (.label .do_interpreter) s0
        = exec b g prog (n + 2) g.program_entry_point
            (interpreter_module b g .do_interpreter s0).2 := by
      simp only [exec, do_interpreter_step b g prog s0 hentry]
    rw [h0, exec_of_arrive b g prog n 2 _ _ _ _ harrive]
    rcases hl with rfl | ⟨rfl, hone⟩
    · simp only [exec, label_step b g prog .global_fail .all_done s1 s1 rfl]
    · have hm : interpreter_module b g .global_success s1 = (.goto_label .all_done, s1) := by
        simp only [interpreter_module, hone]
        rfl
      simp only [exec, label_step b g prog .global_success .all_done s1 s1 hm]
  obtain ⟨sf, hsf, hmaxfr, hsuccip, hhp, hspf, -⟩ := all_done_exec b g prog s1 0
  refine ⟨n + 2 + 1, sf, by rw [hall]; exact hsf, ?_, ?_, ?_, ?_⟩
  · have e : s1.MR_sp - 1 - 1 - 1 = s0.MR_sp + 0 := by omega
    rw [hhp, e, hslots 0 (by omega)]
    exact hpushed.1
  · have e : s1.MR_sp - 1 - 1 = s0.MR_sp + 1 := by omega
    rw [hsuccip, e, hslots 1 (by omega), hpushed.2.1, Code.ofWord_toWord]
  · have e : s1.MR_sp - 1 = s0.MR_sp + 2 := by omega
    rw [hmaxfr, e, hslots 2 (by omega)]
    exact hpushed.2.2
  · rw [hspf]
    omega

/-- Witness of C1 (amended): the program that succeeds at once, in
single-solution mode, and the program that fails at once, in all-solutions
mode, both from the initial machine. -/
theorem do_interpreter_restores_witness :
    (globals_one_soln.program_entry_point ≠ Code.null ∧
     arrive plain_build globals_one_soln prog_succeed 1 globals_one_soln.program_entry_point
        (interpreter_module plain_build globals_one_soln .do_interpreter Machine.initial).2
      = some (Code.label .global_success,
          (interpreter_module plain_build globals_one_soln .do_interpreter Machine.initial).2)) ∧
    (∃ fuel sf, exec plain_build globals_one_soln prog_succeed fuel
        (.label .do_interpreter) Machine.initial = .returned sf ∧
      sf.MR_hp = Machine.initial.MR_hp ∧ sf.MR_succip = Machine.initial.MR_succip ∧
      sf.MR_maxfr = Machine.initial.MR_maxfr ∧ sf.MR_sp = Machine.initial.MR_sp) ∧
    (∃ fuel sf, exec plain_build globals_all_solns prog_fail fuel
        (.label .do_interpreter) Machine.initial = .returned sf ∧
      sf.MR_hp = Machine.initial.MR_hp ∧ sf.MR_succip = Machine.initial.MR_succip ∧
      sf.MR_maxfr = Machine.initial.MR_maxfr ∧ sf.MR_sp = Machine.initial.MR_sp) :=
  ⟨⟨by decide, rfl⟩,
   (do_interpreter_restores plain_build globals_one_soln prog_succeed Machine.initial
      (interpreter_module plain_build globals_one_soln .do_interpreter Machine.initial).2
      1 .global_success (by decide) rfl (Or.inr ⟨rfl, rfl⟩) rfl (fun _ _ => rfl)).2,
   (do_interpreter_restores plain_build globals_all_solns prog_fail Machine.initial
      { (interpreter_module plain_build globals_all_solns .do_interpreter Machine.initial).2
        with MR_curfr :=
          (interpreter_module plain_build globals_all_solns .do_interpreter
            Machine.initial).2.MR_maxfr }
      1 .global_fail (by decide) rfl (Or.inl rfl) rfl (fun _ _ => rfl)).2⟩

/-! ### C2 -/

/-- C5 (counterexample): in a build without `MR_THREAD_SAFE`,
`mercury_runtime_terminate` sets no exit flag and makes no broadcast. -/
theorem terminate_without_broadcast :
    Event.pthread_cond_broadcast ∉
      (mercury_runtime_terminate plain_build idle_hooks (Runtime.initial (.ext 0))).2.log ∧
    Event.MR_exit_now_assigned true ∉
      (mercury_runtime_terminate plain_build idle_hooks (Runtime.initial (.ext 0))).2.log ∧
    Event.terminate_engine ∈
      (mercury_runtime_terminate plain_build idle_hooks (Runtime.initial (.ext 0))).2.log := by
  decide

/-- C5 (amended): `mercury_runtime_terminate` invokes, in this order, the
tracer-end hook, the library finalizer, the tracer-final hook, the
profiler-finish hook exactly when `MR_profiling` is set at that point, the
pool-shutdown broadcast (exit flag set, then broadcast) exactly when the
runtime is built with `MR_THREAD_SAFE`, and the engine teardown; it then
returns the current value of `mercury_exit_status`, which is 0 when it was 0
on entry and no hook writes it. -/
theorem terminate_order (b : Build) (h : Hooks) (r : Runtime) :
    (mercury_runtime_terminate b h r).2.log
      = r.log ++ [Event.save_regs_to_mem, Event.MR_trace_end, Event.MR_library_finalizer,
          Event.MR_trace_final]
        ++ (if (h.MR_trace_final (h.MR_library_finalizer (h.MR_trace_end r.g))).MR_profiling
            then [Event.MR_prof_finish] else [])
        ++ (if b.MR_THREAD_SAFE
            then [Event.MR_exit_now_assigned true, Event.pthread_cond_broadcast] else [])
        ++ [Event.terminate_engine, Event.restore_regs_from_mem] ∧
    (mercury_runtime_terminate b h r).1
      = (mercury_runtime_terminate b h r).2.g.mercury_exit_status ∧
    (r.g.mercury_exit_status = 0 → keeps_exit_status h.MR_trace_end →
      keeps_exit_status h.MR_library_finalizer → keeps_exit_status h.MR_trace_final →
      keeps_exit_status h.MR_prof_finish → keeps_exit_status h.terminate_engine →
      (mercury_runtime_terminate b h r).1 = 0) := by
  refine ⟨?_, rfl, ?_⟩
  · simp only [mercury_runtime_terminate, note, call]
    split <;> split <;> simp
  · intro h0 k1 k2 k3 k4 k5
    simp only [mercury_runtime_terminate, note, call]
    split <;> split <;> simp [k1 _, k2 _, k3 _, k4 _, k5 _, h0]

/-- Witness of C5 (amended): a thread-safe build, hooks that write nothing,
and the initial runtime. -/
theorem terminate_order_witness :
    (mercury_runtime_terminate full_build idle_hooks (Runtime.initial (.ext 0))).2.log
      = [Event.save_regs_to_mem, Event.MR_trace_end, Event.MR_library_finalizer,
          Event.MR_trace_final, Event.MR_prof_finish, Event.MR_exit_now_assigned true,
          Event.pthread_cond_broadcast, Event.terminate_engine, Event.restore_regs_from_mem] ∧
    (mercury_runtime_terminate full_build idle_hooks (Runtime.initial (.ext 0))).1 = 0 :=
  ⟨(terminate_order full_build idle_hooks (Runtime.initial (.ext 0))).1,
   (terminate_order full_build idle_hooks (Runtime.initial (.ext 0))).2.2 rfl
     (fun _ => rfl) (fun _ => rfl) (fun _ => rfl) (fun _ => rfl) (fun _ => rfl)⟩

/-! ### C4 -/

theorem register_displacements_eq (k i : Nat) (r : Runtime) :
    register_displacements k i r
      = { r with log := r.log ++ (List.range' i k).map Event.GC_register_displacement } := by
  induction k generalizing i r with
  | zero => simp [register_displacements]
  | succ k ih =>
    simp only [register_displacements, ih, note, List.range'_succ, List.map_cons,
      List.append_assoc, List.singleton_append]

theorem create_threads_eq (k : Nat) (r : Runtime) :
    create_threads k r = { r with log := r.log ++ List.replicate k Event.create_thread } := by
  induction k generalizing r with
  | zero => simp [create_threads]
  | succ k ih =>
    simp only [create_threads, ih, note, List.replicate_succ, List.append_assoc,
      List.singleton_append]

theorem init_collector_log (b : Build) (h : Hooks) (r : Runtime) :
    (init_collector b h r).log
      = r.log ++ [Event.save_regs_to_mem]
        ++ (if b.CONSERVATIVE_GC then
              [Event.GC_INIT, Event.address_of_init_gc, Event.GC_is_visible]
                ++ (List.range' 1 (2 ^ b.TAGBITS - 1)).map Event.GC_register_displacement
            else []) ∧
    (init_collector b h r).done = r.done := by
  unfold init_collector
  split <;> simp [register_displacements_eq, note, call]

theorem start_engines_log (b : Build) (r : Runtime) :
    (start_engines b r).log
      = r.log ++ (if b.MR_THREAD_SAFE then
            [Event.init_thread_stuff, Event.init_thread, Event.MR_exit_now_assigned false]
              ++ List.replicate (r.g.MR_num_threads - 1) Event.create_thread
          else [Event.init_thread]) ∧
    (start_engines b r).g.MR_profiling = r.g.MR_profiling := by
  unfold start_engines
  split <;> simp [create_threads_eq, note]

theorem do_init_modules_log (h : Hooks) (r : Runtime) :
    (do_init_modules h r).log
      = r.log ++ (if !r.done then [Event.address_of_init_modules] else []) := by
  unfold do_init_modules
  split <;> simp_all [call]

theorem do_init_modules_g (h : Hooks) (r : Runtime) :
    (do_init_modules h r).g = if !r.done then h.address_of_init_modules r.g else r.g := by
  unfold do_init_modules
  split <;> simp_all [call]

theorem init_after_options_log (b : Build) (h : Hooks) (r : Runtime) :
    ∃ gstart : Globals,
      gstart = h.address_of_mercury_init_io
        (if b.MR_NEED_INITIALIZATION_AT_START && !r.done then
          h.address_of_init_modules { r.g with MR_trace_enabled := false }
        else { r.g with MR_trace_enabled := false }) ∧
      (init_after_options b h r).log
        = r.log ++ [Event.MR_trace_enabled_assigned false]
          ++ (if b.MR_NEED_INITIALIZATION_AT_START && !r.done then
                [Event.address_of_init_modules] else [])
          ++ [Event.address_of_mercury_init_io]
          ++ (if b.MR_THREAD_SAFE then
                [Event.init_thread_stuff, Event.init_thread, Event.MR_exit_now_assigned false]
                  ++ List.replicate (gstart.MR_num_threads - 1) Event.create_thread
              else [Event.init_thread])
          ++ (if gstart.MR_profiling then [Event.MR_prof_init] else [])
          ++ [Event.restore_transient_registers, Event.save_registers, Event.MR_trace_init,
              Event.MR_library_initializer, Event.save_context,
              Event.MR_trace_start r.g.MR_trace_enabled, Event.restore_regs_from_mem] ∧
      (init_after_options b h r).g.MR_trace_enabled = r.g.MR_trace_enabled := by
  unfold init_after_options
  simp only []
  generalize hr1 : (if b.MR_NEED_INITIALIZATION_AT_START = true then
      do_init_modules h
        (note (Event.MR_trace_enabled_assigned false)
          { r with g := { r.g with MR_trace_enabled := false } })
      else note (Event.MR_trace_enabled_assigned false)
          { r with g := { r.g with MR_trace_enabled := false } }) = r1
  have hlog1 : r1.log = r.log ++ [Event.MR_trace_enabled_assigned false]
      ++ (if b.MR_NEED_INITIALIZATION_AT_START && !r.done then
            [Event.address_of_init_modules] else []) := by
    rw [← hr1]
    split
    · rename_i hb
      rw [do_init_modules_log]
      simp [note, hb]
    · rename_i hb
      simp [note, hb]
  have hg1 : r1.g = (if b.MR_NEED_INITIALIZATION_AT_START && !r.done then
        h.address_of_init_modules { r.g with MR_trace_enabled := false }
      else { r.g with MR_trace_enabled := false }) := by
    rw [← hr1]
    split
    · rename_i hb
      rw [do_init_modules_g]
      simp [note, hb]
    · rename_i hb
      simp [note, hb]
  generalize hr2 : call Event.address_of_mercury_init_io h.address_of_mercury_init_io r1 = r2
  have hlog2 : r2.log = r1.log ++ [Event.address_of_mercury_init_io] := by
    rw [← hr2]
    rfl
  have hg2 : r2.g = h.address_of_mercury_init_io r1.g := by
    rw [← hr2]
    rfl
  obtain ⟨hlog3, hprof3⟩ := start_engines_log b r2
  refine ⟨r2.g, by rw [hg2, hg1], ?_, ?_⟩
  · rw [← hprof3]
    split <;> rename_i hp <;>
      simp [note, call, MR_trace_start, hlog3, hlog2, hlog1, hp]
  · split <;> simp [note, call, MR_trace_start]

/-- C4 (counterexample): in a thread-safe build with the collector and
initialisation at start, the record of `mercury_runtime_init` has the clearing
of `MR_trace_enabled` and the module-initializer hook before `init_thread`,
not after it. -/
theorem engines_start_after_tracing_disabled :
    (mercury_runtime_init full_build idle_hooks plain_scanf 1 [['a']] none
      (Runtime.initial (.ext 0))).is_ready = true ∧
    ¬ precedes Event.init_thread (Event.MR_trace_enabled_assigned false)
      (mercury_runtime_init full_build idle_hooks plain_scanf 1 [['a']] none
        (Runtime.initial (.ext 0))).runtime.log ∧
    ¬ precedes Event.init_thread Event.address_of_init_modules
      (mercury_runtime_init full_build idle_hooks plain_scanf 1 [['a']] none
        (Runtime.initial (.ext 0))).runtime.log ∧
    precedes (Event.MR_trace_enabled_assigned false) Event.init_thread
      (mercury_runtime_init full_build idle_hooks plain_scanf 1 [['a']] none
        (Runtime.initial (.ext 0))).runtime.log ∧
    precedes Event.address_of_init_modules Event.init_thread
      (mercury_runtime_init full_build idle_hooks plain_scanf 1 [['a']] none
        (Runtime.initial (.ext 0))).runtime.log := by
  unfold precedes
  decide

/-- C4 (amended): when option processing accepts (MERCURY_OPTIONS unset, or
`process_options` returns, leaving the globals `gopt`), `mercury_runtime_init`
returns after these steps in this order: collector registration and
pointer-tag displacement registration for 1 .. 2^TAGBITS - 1 (with
`CONSERVATIVE_GC`), option resolution, tracing force-disabled, the
module-initializer hook (with `MR_NEED_INITIALIZATION_AT_START`, and unless
already done), the library I/O initializer, engine start-up (`init_thread`,
and when thread-safe the `create_thread` loop, which runs `MR_num_threads - 1`
times), profiler initialisation exactly when `MR_profiling` is set at that
point, tracer initialisation, the managed-library initializer, context saved,
tracing restored to the value it had after option processing.  `gstart` is
the globals at engine start-up: those left by the options, with tracing
disabled, after the two hooks before it.  So tracing is disabled and the
module initializer runs before the engines are started, and the context is
saved before tracing is restored. -/
theorem init_order (b : Build) (h : Hooks) (lib : Scanf) (argc : Int)
    (argv : List (List Char)) (env : Option (List Opt)) (r : Runtime) (gopt : Globals)
    (hopts : (env = none ∧ gopt = (process_args argc argv (init_collector b h r)).g) ∨
      ∃ opts, env = some opts ∧
        process_options b lib opts (process_args argc argv (init_collector b h r)).g
          = .ok gopt) :
    ∃ (r' : Runtime) (gstart : Globals),
      mercury_runtime_init b h lib argc argv env r = .ready r' ∧
      gstart = h.address_of_mercury_init_io
        (if b.MR_NEED_INITIALIZATION_AT_START && !r.done then
          h.address_of_init_modules { gopt with MR_trace_enabled := false }
        else { gopt with MR_trace_enabled := false }) ∧
      r'.log = r.log ++ [Event.save_regs_to_mem]
        ++ (if b.CONSERVATIVE_GC then
              [Event.GC_INIT, Event.address_of_init_gc, Event.GC_is_visible]
                ++ (List.range' 1 (2 ^ b.TAGBITS - 1)).map Event.GC_register_displacement
            else [])
        ++ [Event.process_args, Event.process_environment_options,
            Event.MR_trace_enabled_assigned false]
        ++ (if b.MR_NEED_INITIALIZATION_AT_START && !r.done then
              [Event.address_of_init_modules] else [])
        ++ [Event.address_of_mercury_init_io]
        ++ (if b.MR_THREAD_SAFE then
              [Event.init_thread_stuff, Event.init_thread, Event.MR_exit_now_assigned false]
                ++ List.replicate (gstart.MR_num_threads - 1) Event.create_thread
            else [Event.init_thread])
        ++ (if gstart.MR_profiling then [Event.MR_prof_init] else [])
        ++ [Event.restore_transient_registers, Event.save_registers, Event.MR_trace_init,
            Event.MR_library_initializer, Event.save_context,
            Event.MR_trace_start gopt.MR_trace_enabled, Event.restore_regs_from_mem] ∧
      r'.g.MR_trace_enabled = gopt.MR_trace_enabled := by
  obtain ⟨hclog, hcdone⟩ := init_collector_log b h r
  have hplog : (process_args argc argv (init_collector b h r)).log
      = (init_collector b h r).log ++ [Event.process_args] := rfl
  have hpdone : (process_args argc argv (init_collector b h r)).done = r.done := hcdone
  generalize hr0 : process_args argc argv (init_collector b h r) = r0 at hopts hplog hpdone
  have key : ∀ rr : Runtime, rr.g = gopt → rr.done = r.done →
      rr.log = r0.log ++ [Event.process_environment_options] →
      ∃ gstart : Globals,
        gstart = h.address_of_mercury_init_io
          (if b.MR_NEED_INITIALIZATION_AT_START && !r.done then
            h.address_of_init_modules { gopt with MR_trace_enabled := false }
          else { gopt with MR_trace_enabled := false }) ∧
        (init_after_options b h rr).log = r.log ++ [Event.save_regs_to_mem]
          ++ (if b.CONSERVATIVE_GC then
                [Event.GC_INIT, Event.address_of_init_gc, Event.GC_is_visible]
                  ++ (List.range' 1 (2 ^ b.TAGBITS - 1)).map Event.GC_register_displacement
              else [])
          ++ [Event.process_args, Event.process_environment_options,
              Event.MR_trace_enabled_assigned false]
          ++ (if b.MR_NEED_INITIALIZATION_AT_START && !r.done then
                [Event.address_of_init_modules] else [])
          ++ [Event.address_of_mercury_init_io]
          ++ (if b.MR_THREAD_SAFE then
                [Event.init_thread_stuff, Event.init_thread, Event.MR_exit_now_assigned false]
                  ++ List.replicate (gstart.MR_num_threads - 1) Event.create_thread
              else [Event.init_thread])
          ++ (if gstart.MR_profiling then [Event.MR_prof_init] else [])
          ++ [Event.restore_transient_registers, Event.save_registers, Event.MR_trace_init,
              Event.MR_library_initializer, Event.save_context,
              Event.MR_trace_start gopt.MR_trace_enabled, Event.restore_regs_from_mem] ∧
        (init_after_options b h rr).g.MR_trace_enabled = gopt.MR_trace_enabled := by
    intro rr hg hd hl
    obtain ⟨gstart, hgs, hlog, htr⟩ := init_after_options_log b h rr
    refine ⟨gstart, by rw [hgs, hd, hg], ?_, by rw [htr, hg]⟩
    rw [hlog, hl, hplog, hclog, hd, hg]
    simp only [List.append_assoc, List.cons_append, List.nil_append]
  rcases hopts with ⟨rfl, hg⟩ | ⟨opts, rfl, hok⟩
  · obtain ⟨gstart, hgs, hlog, htr⟩ :=
      key (note Event.process_environment_options r0) hg.symm hpdone rfl
    refine ⟨_, gstart, ?_, hgs, hlog, htr⟩
    simp only [mercury_runtime_init, hr0]
  · obtain ⟨gstart, hgs, hlog, htr⟩ :=
      key { note Event.process_environment_options r0 with g := gopt } rfl hpdone rfl
    refine ⟨_, gstart, ?_, hgs, hlog, htr⟩
    simp only [mercury_runtime_init, hr0, note, hok]

/-- Witness of C4 (amended): a thread-safe build with the collector, and
MERCURY_OPTIONS holding `-Di -P2 -p`: tracing is enabled by the options,
disabled during start-up, and enabled again at the end; two threads make one
`create_thread` call, and with profiling off `MR_prof_init` is not called. -/
theorem init_order_witness :
    process_options full_build plain_scanf [⟨'D', ['i']⟩, ⟨'P', ['2']⟩, ⟨'p', []⟩]
        (process_args 1 [['a']]
          (init_collector full_build idle_hooks (Runtime.initial (.ext 0)))).g
      = .ok (process_options full_build plain_scanf [⟨'D', ['i']⟩, ⟨'P', ['2']⟩, ⟨'p', []⟩]
          (process_args 1 [['a']]
            (init_collector full_build idle_hooks (Runtime.initial (.ext 0)))).g).globals ∧
    ∃ r', mercury_runtime_init full_build idle_hooks plain_scanf 1 [['a']]
          (some [⟨'D', ['i']⟩, ⟨'P', ['2']⟩, ⟨'p', []⟩]) (Runtime.initial (.ext 0))
        = .ready r' ∧
      r'.log = [Event.save_regs_to_mem, Event.GC_INIT, Event.address_of_init_gc,
        Event.GC_is_visible, Event.GC_register_displacement 1,
        Event.GC_register_displacement 2, Event.GC_register_displacement 3,
        Event.process_args, Event.process_environment_options,
        Event.MR_trace_enabled_assigned false, Event.address_of_init_modules,
        Event.address_of_mercury_init_io, Event.init_thread_stuff, Event.init_thread,
        Event.MR_exit_now_assigned false, Event.create_thread,
        Event.restore_transient_registers, Event.save_registers, Event.MR_trace_init,
        Event.MR_library_initializer, Event.save_context, Event.MR_trace_start true,
        Event.restore_regs_from_mem] ∧
      r'.g.MR_trace_enabled = true :=
  ⟨rfl,
   match init_order full_build idle_hooks plain_scanf 1 [['a']]
      (some [⟨'D', ['i']⟩, ⟨'P', ['2']⟩, ⟨'p', []⟩]) (Runtime.initial (.ext 0))
      (process_options full_build plain_scanf [⟨'D', ['i']⟩, ⟨'P', ['2']⟩, ⟨'p', []⟩]
          (process_args 1 [['a']]
            (init_collector full_build idle_hooks (Runtime.initial (.ext 0)))).g).globals
      (Or.inr ⟨_, rfl, rfl⟩) with
   | ⟨r', _, hready, hstart, hlog, htrace⟩ => ⟨r', hready, by rw [hlog, hstart]; rfl, htrace⟩⟩

/-! ### C3 -/

theorem case_d_fatal (b : Build) (a : List Char) (g g' : Globals) (msg : String)
    (h : case_d b a g = .fatal_error msg g') : msg = "-dG: GC not enabled" := by
  unfold case_d at h
  iterate 4 (rcases ite_cases h with h1 | h; · cases h1)
  rcases ite_cases h with h1 | h
  · rcases ite_cases h1 with h2 | h2
    · cases h2
    · cases h2
      rfl
  iterate 8 (rcases ite_cases h with h1 | h; · cases h1)
  cases h

theorem process_option_fatal (b : Build) (lib : Scanf) (o : Opt) (g g' : Globals)
    (msg : String) (h : process_option b lib o g = .fatal_error msg g') :
    msg = "-dG: GC not enabled" := by
  unfold process_option at h
  iterate 2 (rcases ite_cases h with h1 | h; · cases h1)
  rcases ite_cases h with h1 | h
  · unfold case_C at h1
    split at h1 <;> cases h1
  rcases ite_cases h with h1 | h
  · exact case_d_fatal b _ g g' msg h1
  rcases ite_cases h with h1 | h
  · unfold case_D at h1
    iterate 2 (rcases ite_cases h1 with h2 | h1; · cases h2)
    cases h1
  rcases ite_cases h with h1 | h
  · cases h1
  rcases ite_cases h with h1 | h
  · unfold case_P at h1
    rcases ite_cases h1 with h2 | h2
    · split at h2
      · cases h2
      · rcases ite_cases h2 with h3 | h3 <;> cases h3
    · cases h2
  rcases ite_cases h with h1 | h
  · unfold case_r at h1
    split at h1 <;> cases h1
  rcases ite_cases h with h1 | h
  · unfold case_s at h1
    split at h1
    · cases h1
    · iterate 4 (rcases ite_cases h1 with h2 | h1; · cases h2)
      cases h1
  rcases ite_cases h with h1 | h
  · cases h1
  rcases ite_cases h with h1 | h
  · unfold case_T at h1
    iterate 3 (rcases ite_cases h1 with h2 | h1; · cases h2)
    cases h1
  rcases ite_cases h with h1 | h
  · cases h1
  rcases ite_cases h with h1 | h
  · unfold case_z at h1
    split at h1
    · cases h1
    · iterate 4 (rcases ite_cases h1 with h2 | h1; · cases h2)
      cases h1
  cases h

theorem process_options_fatal (b : Build) (lib : Scanf) (opts : List Opt) (g g' : Globals)
    (msg : String) (h : process_options b lib opts g = .fatal_error msg g') :
    msg = "-dG: GC not enabled" := by
  induction opts generalizing g with
  | nil => simp [process_options] at h
  | cons o rest ih =>
    simp only [process_options] at h
    cases hp : process_option b lib o g with
    | ok g2 =>
      rw [hp] at h
      exact ih g2 h
    | usage g2 => rw [hp] at h; cases h
    | fatal_error m g2 =>
      rw [hp] at h
      cases h
      exact process_option_fatal b lib o g g' msg hp

/-- C3 (counterexample): with the program entry point NULL,
`mercury_runtime_init` returns normally; `mercury_runtime_main` then calls the
engine, and it is that call of `do_interpreter` which ends in the fatal error
"no program entry point supplied". -/
theorem null_entry_passes_init :
    (mercury_runtime_init plain_build idle_hooks plain_scanf 1 [['a']] none
      (Runtime.initial .null)).is_ready = true ∧
    (mercury_runtime_init plain_build idle_hooks plain_scanf 1 [['a']] none
      (Runtime.initial .null)).runtime.g.program_entry_point = Code.null ∧
    (mercury_runtime_main
      (mercury_runtime_init plain_build idle_hooks plain_scanf 1 [['a']] none
        (Runtime.initial .null)).runtime.g
      (call_engine plain_build
        (mercury_runtime_init plain_build idle_hooks plain_scanf 1 [['a']] none
          (Runtime.initial .null)).runtime.g prog_succeed 4 .do_interpreter)
      Machine.initial).engine_calls = 1 ∧
    (mercury_runtime_main
      (mercury_runtime_init plain_build idle_hooks plain_scanf 1 [['a']] none
        (Runtime.initial .null)).runtime.g
      (call_engine plain_build
        (mercury_runtime_init plain_build idle_hooks plain_scanf 1 [['a']] none
          (Runtime.initial .null)).runtime.g prog_succeed 4 .do_interpreter)
      Machine.initial).outcome.fatal_message = some "no program entry point supplied" :=
  ⟨rfl, rfl, rfl, rfl⟩

/-- C3 (amended): `mercury_runtime_init` does not look at the program entry
point: whatever it is, NULL included, the only fatal error in which start-up
can end is "-dG: GC not enabled", and with MERCURY_OPTIONS unset it returns.
When the entry point is NULL the fatal error "no program entry point
supplied" is raised by `do_interpreter`, after it has pushed the three
registers and its choice-point frame and before any program code runs; with
`repeats >= 1` that happens in the first `call_engine` of
`mercury_runtime_main`. -/
theorem null_entry_fault_in_do_interpreter (b : Build) (h : Hooks) (lib : Scanf)
    (argc : Int) (argv : List (List Char)) (env : Option (List Opt)) (r : Runtime)
    (g : Globals) (prog : Program) (s : Machine) (fuel : Nat)
    (hnull : g.program_entry_point = .null) (hrep : 1 ≤ g.repeats) :
    (∀ msg r', mercury_runtime_init b h lib argc argv env r = .fatal msg r' →
      msg = "-dG: GC not enabled") ∧
    (∃ r', mercury_runtime_init b h lib argc argv none r = .ready r') ∧
    interpreter_module b g .do_interpreter s
      = (.fatal_error "no program entry point supplied",
          mkframe 1 (.label .global_fail)
            (push s.MR_maxfr (push s.MR_succip.toWord (push s.MR_hp s)))) ∧
    mercury_runtime_main g (call_engine b g prog (fuel + 1) .do_interpreter) s
      = ⟨1, .fatal "no program entry point supplied"
          (mkframe 1 (.label .global_fail)
            (push s.MR_maxfr (push s.MR_succip.toWord (push s.MR_hp s))))⟩ := by
  have hblock : interpreter_module b g .do_interpreter s
      = (.fatal_error "no program entry point supplied",
          mkframe 1 (.label .global_fail)
            (push s.MR_maxfr (push s.MR_succip.toWord (push s.MR_hp s)))) := by
    simp only [interpreter_module, hnull, if_true]
    rfl
  refine ⟨?_, ⟨_, rfl⟩, hblock, ?_⟩
  · intro msg r' hf
    unfold mercury_runtime_init at hf
    cases env with
    | none => cases hf
    | some opts =>
      simp only [] at hf
      split at hf
      · cases hf
      · cases hf
      · rename_i m g' hpo
        cases hf
        exact process_options_fatal b lib opts _ g' _ hpo
  · obtain ⟨k, hk⟩ : ∃ k, g.repeats.toNat = k + 1 := ⟨g.repeats.toNat - 1, by omega⟩
    have heng : call_engine b g prog (fuel + 1) .do_interpreter s
        = .fatal "no program entry point supplied"
            (mkframe 1 (.label .global_fail)
              (push s.MR_maxfr (push s.MR_succip.toWord (push s.MR_hp s)))) := by
      simp only [call_engine, exec, step, hblock]
    simp only [mercury_runtime_main, hk, repeat_engine, heng]

/-- Witness of C3 (amended): the initial globals, whose entry point is NULL and
whose repeat count is 1. -/
theorem null_entry_fault_in_do_interpreter_witness :
    (Globals.initial.program_entry_point = Code.null ∧ 1 ≤ Globals.initial.repeats) ∧
    mercury_runtime_main Globals.initial
        (call_engine plain_build Globals.initial prog_succeed (3 + 1) .do_interpreter)
        Machine.initial
      = ⟨1, .fatal "no program entry point supplied"
          (mkframe 1 (.label .global_fail)
            (push Machine.initial.MR_maxfr
              (push Machine.initial.MR_succip.toWord
                (push Machine.initial.MR_hp Machine.initial))))⟩ :=
  ⟨⟨rfl, by decide⟩,
   (null_entry_fault_in_do_interpreter plain_build idle_hooks plain_scanf 1 [['a']] none
      (Runtime.initial .null) Globals.initial prog_succeed Machine.initial 3 rfl
      (by decide)).2.2.2⟩

/-! ### The argument vector: helper lemmas -/

theorem backslash_ne_dquote : BACKSLASH ≠ DQUOTE := by decide

theorem skip_space_eq_dropWhile (s : List Char) : skip_space s = s.dropWhile isspace := by
  induction s with
  | nil => rfl
  | cons c rest ih =>
    simp only [skip_space, List.dropWhile]
    cases hc : isspace c <;> simp [ih]

theorem reference_quoted_dquote (rest : List Char) :
    reference_quoted (DQUOTE :: rest) = some ([], rest) := by
  unfold reference_quoted
  simp

theorem reference_quoted_escape (c2 : Char) (rest : List Char) :
    reference_quoted (BACKSLASH :: c2 :: rest)
      = (reference_quoted rest).map (fun r => (c2 :: r.1, r.2)) := by
  rw [reference_quoted]
  simp [backslash_ne_dquote]

theorem reference_quoted_escape_end : reference_quoted [BACKSLASH] = none := by
  rw [reference_quoted]
  simp [backslash_ne_dquote]

theorem reference_quoted_other (c : Char) (rest : List Char) (hc : c ≠ DQUOTE)
    (hb : c ≠ BACKSLASH) :
    reference_quoted (c :: rest) = (reference_quoted rest).map (fun r => (c :: r.1, r.2)) := by
  rw [reference_quoted.eq_def]
  simp [hc, hb]

theorem count_quoted_dquote (rest : List Char) (n : Nat) :
    count_quoted (DQUOTE :: rest) n = .ok (DQUOTE :: rest, n) := by
  unfold count_quoted
  simp

theorem count_quoted_escape (c2 : Char) (rest : List Char) (n : Nat) :
    count_quoted (BACKSLASH :: c2 :: rest) n = count_quoted rest (n + 1) := by
  rw [count_quoted]
  simp [backslash_ne_dquote, pointer_is_null]

theorem count_quoted_other (c : Char) (rest : List Char) (n : Nat) (hc : c ≠ DQUOTE)
    (hb : c ≠ BACKSLASH) :
    count_quoted (c :: rest) n = count_quoted rest (n + 1) := by
  rw [count_quoted.eq_def]
  simp [hc, hb, pointer_is_null]

theorem copy_quoted_dquote (rest d : List Char) :
    copy_quoted (DQUOTE :: rest) d = .ok (DQUOTE :: rest, d) := by
  unfold copy_quoted
  simp

theorem copy_quoted_escape (c2 : Char) (rest d : List Char) :
    copy_quoted (BACKSLASH :: c2 :: rest) d = copy_quoted rest (d ++ [c2]) := by
  rw [copy_quoted]
  simp [backslash_ne_dquote]

theorem copy_quoted_other (c : Char) (rest d : List Char) (hc : c ≠ DQUOTE)
    (hb : c ≠ BACKSLASH) :
    copy_quoted (c :: rest) d = copy_quoted rest (d ++ [c]) := by
  rw [copy_quoted.eq_def]
  simp [hc, hb]

theorem quoted_of_reference_aux (m : Nat) :
    ∀ s : List Char, s.length ≤ m → ∀ a r, reference_quoted s = some (a, r) →
      (∀ n, count_quoted s n = .ok (DQUOTE :: r, n + a.length)) ∧
      (∀ d, copy_quoted s d = .ok (DQUOTE :: r, d ++ a)) := by
  induction m with
  | zero =>
    intro s hs a r h
    cases s with
    | nil => simp [reference_quoted] at h
    | cons c rest => simp at hs
  | succ m ih =>
    intro s hs a r h
    cases s with
    | nil => simp [reference_quoted] at h
    | cons c rest =>
      simp only [List.length_cons] at hs
      by_cases hc : c = DQUOTE
      · subst hc
        rw [reference_quoted_dquote] at h
        simp only [Option.some.injEq, Prod.mk.injEq] at h
        obtain ⟨rfl, rfl⟩ := h
        exact ⟨fun n => by rw [count_quoted_dquote]; rfl,
          fun d => by rw [copy_quoted_dquote]; simp⟩
      · by_cases hb : c = BACKSLASH
        · subst hb
          cases rest with
          | nil => rw [reference_quoted_escape_end] at h; cases h
          | cons c2 rest2 =>
            simp only [List.length_cons] at hs
            rw [reference_quoted_escape, Option.map_eq_some'] at h
            obtain ⟨⟨a1, r1⟩, h1, h2⟩ := h
            simp only [Prod.mk.injEq] at h2
            obtain ⟨rfl, rfl⟩ := h2
            obtain ⟨ihc, ihd⟩ := ih rest2 (by omega) a1 r1 h1
            constructor
            · intro n
              rw [count_quoted_escape, ihc, List.length_cons]
              simp only [Scan.ok.injEq, Prod.mk.injEq, true_and]
              omega
            · intro d
              rw [copy_quoted_escape, ihd]
              simp
        · rw [reference_quoted_other c rest hc hb, Option.map_eq_some'] at h
          obtain ⟨⟨a1, r1⟩, h1, h2⟩ := h
          simp only [Prod.mk.injEq] at h2
          obtain ⟨rfl, rfl⟩ := h2
          obtain ⟨ihc, ihd⟩ := ih rest (by omega) a1 r1 h1
          constructor
          · intro n
            rw [count_quoted_other c rest n hc hb, ihc, List.length_cons]
            simp only [Scan.ok.injEq, Prod.mk.injEq, true_and]
            omega
          · intro d
            rw [copy_quoted_other c rest d hc hb, ihd]
            simp

theorem quoted_of_reference (s a r : List Char) (h : reference_quoted s = some (a, r)) :
    (∀ n, count_quoted s n = .ok (DQUOTE :: r, n + a.length)) ∧
    (∀ d, copy_quoted s d = .ok (DQUOTE :: r, d ++ a)) :=
  quoted_of_reference_aux s.length s (Nat.le_refl _) a r h

theorem isspace_backslash : isspace BACKSLASH = false := by decide

theorem reference_plain_space (c : Char) (rest : List Char) (hs : isspace c = true) :
    reference_plain (c :: rest) = some ([], c :: rest) := by
  rw [reference_plain.eq_def]
  simp [hs]

theorem reference_plain_escape (c2 : Char) (rest : List Char) :
    reference_plain (BACKSLASH :: c2 :: rest)
      = (reference_plain rest).map (fun r => (c2 :: r.1, r.2)) := by
  rw [reference_plain.eq_def]
  simp [isspace_backslash]

theorem reference_plain_escape_end : reference_plain [BACKSLASH] = none := by
  rw [reference_plain.eq_def]
  simp [isspace_backslash]

theorem reference_plain_other (c : Char) (rest : List Char) (hs : isspace c = false)
    (hb : c ≠ BACKSLASH) :
    reference_plain (c :: rest) = (reference_plain rest).map (fun r => (c :: r.1, r.2)) := by
  rw [reference_plain.eq_def]
  simp [hs, hb]

theorem count_plain_space (c : Char) (rest : List Char) (n : Nat) (hs : isspace c = true) :
    count_plain (c :: rest) n = .ok (c :: rest, n) := by
  rw [count_plain.eq_def]
  simp [hs]

theorem count_plain_escape (c2 : Char) (rest : List Char) (n : Nat) :
    count_plain (BACKSLASH :: c2 :: rest) n = count_plain rest (n + 1) := by
  rw [count_plain.eq_def]
  simp [isspace_backslash]

theorem count_plain_other (c : Char) (rest : List Char) (n : Nat) (hs : isspace c = false)
    (hb : c ≠ BACKSLASH) :
    count_plain (c :: rest) n = count_plain rest (n + 1) := by
  rw [count_plain.eq_def]
  simp [hs, hb]

theorem copy_plain_space (c : Char) (rest d : List Char) (hs : isspace c = true) :
    copy_plain (c :: rest) d = .ok (c :: rest, d) := by
  rw [copy_plain.eq_def]
  simp [hs]

theorem copy_plain_escape (c2 : Char) (rest d : List Char) :
    copy_plain (BACKSLASH :: c2 :: rest) d = copy_plain rest (d ++ [c2]) := by
  rw [copy_plain.eq_def]
  simp [isspace_backslash]

theorem copy_plain_other (c : Char) (rest d : List Char) (hs : isspace c = false)
    (hb : c ≠ BACKSLASH) :
    copy_plain (c :: rest) d = copy_plain rest (d ++ [c]) := by
  rw [copy_plain.eq_def]
  simp [hs, hb]

theorem plain_of_reference_aux (m : Nat) :
    ∀ s : List Char, s.length ≤ m → ∀ a r, reference_plain s = some (a, r) →
      (∀ n, count_plain s n = .ok (r, n + a.length)) ∧
      (∀ d, copy_plain s d = .ok (r, d ++ a)) := by
  induction m with
  | zero =>
    intro s hs a r h
    cases s with
    | nil =>
      simp only [reference_plain, Option.some.injEq, Prod.mk.injEq] at h
      obtain ⟨rfl, rfl⟩ := h
      exact ⟨fun n => by simp [count_plain], fun d => by simp [copy_plain]⟩
    | cons c rest => simp at hs
  | succ m ih =>
    intro s hs a r h
    cases s with
    | nil =>
      simp only [reference_plain, Option.some.injEq, Prod.mk.injEq] at h
      obtain ⟨rfl, rfl⟩ := h
      exact ⟨fun n => by simp [count_plain], fun d => by simp [copy_plain]⟩
    | cons c rest =>
      simp only [List.length_cons] at hs
      cases hsp : isspace c with
      | true =>
        rw [reference_plain_space c rest hsp] at h
        simp only [Option.some.injEq, Prod.mk.injEq] at h
        obtain ⟨rfl, rfl⟩ := h
        exact ⟨fun n => by rw [count_plain_space c rest n hsp]; rfl,
          fun d => by rw [copy_plain_space c rest d hsp]; simp⟩
      | false =>
        by_cases hb : c = BACKSLASH
        · subst hb
          cases rest with
          | nil => rw [reference_plain_escape_end] at h; cases h
          | cons c2 rest2 =>
            simp only [List.length_cons] at hs
            rw [reference_plain_escape, Option.map_eq_some'] at h
            obtain ⟨⟨a1, r1⟩, h1, h2⟩ := h
            simp only [Prod.mk.injEq] at h2
            obtain ⟨rfl, rfl⟩ := h2
            obtain ⟨ihc, ihd⟩ := ih rest2 (by omega) a1 r1 h1
            constructor
            · intro n
              rw [count_plain_escape, ihc, List.length_cons]
              simp only [Scan.ok.injEq, Prod.mk.injEq, true_and]
              omega
            · intro d
              rw [copy_plain_escape, ihd]
              simp
        · rw [reference_plain_other c rest hsp hb, Option.map_eq_some'] at h
          obtain ⟨⟨a1, r1⟩, h1, h2⟩ := h
          simp only [Prod.mk.injEq] at h2
          obtain ⟨rfl, rfl⟩ := h2
          obtain ⟨ihc, ihd⟩ := ih rest (by omega) a1 r1 h1
          constructor
          · intro n
            rw [count_plain_other c rest n hsp hb, ihc, List.length_cons]
            simp only [Scan.ok.injEq, Prod.mk.injEq, true_and]
            omega
          · intro d
            rw [copy_plain_other c rest d hsp hb, ihd]
            simp

theorem plain_of_reference (s a r : List Char) (h : reference_plain s = some (a, r)) :
    (∀ n, count_plain s n = .ok (r, n + a.length)) ∧
    (∀ d, copy_plain s d = .ok (r, d ++ a)) :=
  plain_of_reference_aux s.length s (Nat.le_refl _) a r h

theorem first_pass_of_reference (fuel : Nat) :
    ∀ (s : List Char) (args : List (List Char)), reference_args fuel s = some args →
      ∀ argc len, first_pass fuel s argc len
        = .ok (argc + args.length, len + (args.map (fun a => a.length + 1)).sum) := by
  induction fuel with
  | zero => intro s args h; simp [reference_args] at h
  | succ fuel ih =>
    intro s args h argc len
    rw [reference_args] at h
    rw [first_pass, skip_space_eq_dropWhile]
    cases hd : s.dropWhile isspace with
    | nil =>
      rw [hd] at h
      simp only [Option.some.injEq] at h
      subst h
      simp
    | cons c rest =>
      rw [hd] at h
      simp only at h ⊢
      by_cases hc : c = DQUOTE
      · simp only [hc, if_true] at h ⊢
        cases hq : reference_quoted rest with
        | none => rw [hq] at h; cases h
        | some ar =>
          obtain ⟨a, r⟩ := ar
          rw [hq] at h
          simp only [Option.map_eq_some'] at h
          obtain ⟨args1, h1, rfl⟩ := h
          rw [(quoted_of_reference rest a r hq).1 len]
          simp only [List.tail_cons]
          rw [ih r args1 h1]
          simp only [List.length_cons, List.map_cons, List.sum_cons, Scan.ok.injEq,
            Prod.mk.injEq]
          omega
      · simp only [hc, if_false] at h ⊢
        cases hq : reference_plain (c :: rest) with
        | none => rw [hq] at h; cases h
        | some ar =>
          obtain ⟨a, r⟩ := ar
          rw [hq] at h
          simp only [Option.map_eq_some'] at h
          obtain ⟨args1, h1, rfl⟩ := h
          rw [(plain_of_reference (c :: rest) a r hq).1 len]
          simp only
          rw [ih r args1 h1]
          simp only [List.length_cons, List.map_cons, List.sum_cons, Scan.ok.injEq,
            Prod.mk.injEq]
          omega

theorem second_pass_of_reference (fuel : Nat) :
    ∀ (s : List Char) (args : List (List Char)), reference_args fuel s = some args →
      ∀ argv, second_pass args.length s argv = .ok (argv ++ args) := by
  induction fuel with
  | zero => intro s args h; simp [reference_args] at h
  | succ fuel ih =>
    intro s args h argv
    rw [reference_args] at h
    cases hd : s.dropWhile isspace with
    | nil =>
      rw [hd] at h
      simp only [Option.some.injEq] at h
      subst h
      simp [second_pass]
    | cons c rest =>
      rw [hd] at h
      simp only at h
      by_cases hc : c = DQUOTE
      · simp only [hc, if_true] at h
        cases hq : reference_quoted rest with
        | none => rw [hq] at h; cases h
        | some ar =>
          obtain ⟨a, r⟩ := ar
          rw [hq] at h
          simp only [Option.map_eq_some'] at h
          obtain ⟨args1, h1, rfl⟩ := h
          rw [List.length_cons, second_pass, skip_space_eq_dropWhile, hd]
          simp only [hc, if_true]
          rw [(quoted_of_reference rest a r hq).2 []]
          simp only [List.tail_cons, List.nil_append]
          rw [ih r args1 h1]
          simp
      · simp only [hc, if_false] at h
        cases hq : reference_plain (c :: rest) with
        | none => rw [hq] at h; cases h
        | some ar =>
          obtain ⟨a, r⟩ := ar
          rw [hq] at h
          simp only [Option.map_eq_some'] at h
          obtain ⟨args1, h1, rfl⟩ := h
          rw [List.length_cons, second_pass, skip_space_eq_dropWhile, hd]
          simp only [hc, if_false]
          rw [(plain_of_reference (c :: rest) a r hq).2 []]
          simp only [List.nil_append]
          rw [ih r args1 h1]
          simp

theorem dropWhile_length_le (s : List Char) : (s.dropWhile isspace).length ≤ s.length := by
  induction s with
  | nil => simp
  | cons c rest ih =>
    simp only [List.dropWhile]
    cases isspace c
    · simp
    · simp only [List.length_cons]
      omega

theorem reference_quoted_length_aux (m : Nat) :
    ∀ s : List Char, s.length ≤ m → ∀ a r, reference_quoted s = some (a, r) →
      r.length < s.length := by
  induction m with
  | zero =>
    intro s hs a r h
    cases s with
    | nil => simp [reference_quoted] at h
    | cons c rest => simp at hs
  | succ m ih =>
    intro s hs a r h
    cases s with
    | nil => simp [reference_quoted] at h
    | cons c rest =>
      simp only [List.length_cons] at hs ⊢
      by_cases hc : c = DQUOTE
      · subst hc
        rw [reference_quoted_dquote] at h
        simp only [Option.some.injEq, Prod.mk.injEq] at h
        obtain ⟨rfl, rfl⟩ := h
        omega
      · by_cases hb : c = BACKSLASH
        · subst hb
          cases rest with
          | nil => rw [reference_quoted_escape_end] at h; cases h
          | cons c2 rest2 =>
            simp only [List.length_cons] at hs ⊢
            rw [reference_quoted_escape, Option.map_eq_some'] at h
            obtain ⟨⟨a1, r1⟩, h1, h2⟩ := h
            simp only [Prod.mk.injEq] at h2
            obtain ⟨rfl, rfl⟩ := h2
            have := ih rest2 (by omega) a1 r1 h1
            omega
        · rw [reference_quoted_other c rest hc hb, Option.map_eq_some'] at h
          obtain ⟨⟨a1, r1⟩, h1, h2⟩ := h
          simp only [Prod.mk.injEq] at h2
          obtain ⟨rfl, rfl⟩ := h2
          have := ih rest (by omega) a1 r1 h1
          omega

theorem reference_plain_length_aux (m : Nat) :
    ∀ s : List Char, s.length ≤ m → ∀ a r, reference_plain s = some (a, r) →
      r.length ≤ s.length ∧ (∀ c rest, s = c :: rest → isspace c = false → r.length < s.length) := by
  induction m with
  | zero =>
    intro s hs a r h
    cases s with
    | nil =>
      simp only [reference_plain, Option.some.injEq, Prod.mk.injEq] at h
      obtain ⟨rfl, rfl⟩ := h
      exact ⟨Nat.le_refl _, fun c rest hcr => by cases hcr⟩
    | cons c rest => simp at hs
  | succ m ih =>
    intro s hs a r h
    cases s with
    | nil =>
      simp only [reference_plain, Option.some.injEq, Prod.mk.injEq] at h
      obtain ⟨rfl, rfl⟩ := h
      exact ⟨Nat.le_refl _, fun c rest hcr => by cases hcr⟩
    | cons c rest =>
      simp only [List.length_cons] at hs
      cases hsp : isspace c with
      | true =>
        rw [reference_plain_space c rest hsp] at h
        simp only [Option.some.injEq, Prod.mk.injEq] at h
        obtain ⟨rfl, rfl⟩ := h
        refine ⟨Nat.le_refl _, fun c' rest' hcr hn => ?_⟩
        cases hcr
        rw [hsp] at hn
        cases hn
      | false =>
        have key : r.length < (c :: rest).length := by
          simp only [List.length_cons]
          by_cases hb : c = BACKSLASH
          · subst hb
            cases rest with
            | nil => rw [reference_plain_escape_end] at h; cases h
            | cons c2 rest2 =>
              simp only [List.length_cons] at hs ⊢
              rw [reference_plain_escape, Option.map_eq_some'] at h
              obtain ⟨⟨a1, r1⟩, h1, h2⟩ := h
              simp only [Prod.mk.injEq] at h2
              obtain ⟨rfl, rfl⟩ := h2
              have := (ih rest2 (by omega) a1 r1 h1).1
              omega
          · rw [reference_plain_other c rest hsp hb, Option.map_eq_some'] at h
            obtain ⟨⟨a1, r1⟩, h1, h2⟩ := h
            simp only [Prod.mk.injEq] at h2
            obtain ⟨rfl, rfl⟩ := h2
            have := (ih rest (by omega) a1 r1 h1).1
            omega
        exact ⟨Nat.le_of_lt key, fun _ _ _ _ => key⟩

theorem dropWhile_head_not_space (s : List Char) (c : Char) (rest : List Char)
    (h : s.dropWhile isspace = c :: rest) : isspace c = false := by
  induction s with
  | nil => simp at h
  | cons x xs ih =>
    simp only [List.dropWhile] at h
    cases hx : isspace x with
    | true =>
      rw [hx] at h
      exact ih h
    | false =>
      rw [hx] at h
      simp only [List.cons.injEq] at h
      rw [← h.1]
      exact hx

theorem reference_args_fuel (fuel : Nat) :
    ∀ (s : List Char) (args : List (List Char)), reference_args fuel s = some args →
      ∀ fuel', s.length < fuel' → reference_args fuel' s = some args := by
  induction fuel with
  | zero => intro s args h; simp [reference_args] at h
  | succ fuel ih =>
    intro s args h fuel' hf
    obtain ⟨k, rfl⟩ : ∃ k, fuel' = k + 1 := ⟨fuel' - 1, by omega⟩
    rw [reference_args] at h ⊢
    have hlen := dropWhile_length_le s
    cases hd : s.dropWhile isspace with
    | nil =>
      rw [hd] at h
      exact h
    | cons c rest =>
      rw [hd] at h hlen
      simp only [List.length_cons] at hlen
      simp only at h ⊢
      by_cases hc : c = DQUOTE
      · simp only [hc, if_true] at h ⊢
        cases hq : reference_quoted rest with
        | none => rw [hq] at h; cases h
        | some ar =>
          obtain ⟨a, r⟩ := ar
          rw [hq] at h
          simp only [Option.map_eq_some'] at h ⊢
          obtain ⟨args1, h1, rfl⟩ := h
          have hr := reference_quoted_length_aux rest.length rest (Nat.le_refl _) a r hq
          exact ⟨args1, ih r args1 h1 k (by omega), rfl⟩
      · simp only [hc, if_false] at h ⊢
        cases hq : reference_plain (c :: rest) with
        | none => rw [hq] at h; cases h
        | some ar =>
          obtain ⟨a, r⟩ := ar
          rw [hq] at h
          simp only [Option.map_eq_some'] at h ⊢
          obtain ⟨args1, h1, rfl⟩ := h
          have hr := (reference_plain_length_aux (c :: rest).length (c :: rest) (Nat.le_refl _)
            a r hq).2 c rest rfl (dropWhile_head_not_space s c rest hd)
          simp only [List.length_cons] at hr
          exact ⟨args1, ih r args1 h1 k (by omega), rfl⟩

theorem count_quoted_not_fatal_aux (m : Nat) :
    ∀ (s : List Char), s.length ≤ m → ∀ n, (count_quoted s n).is_fatal = false := by
  induction m with
  | zero =>
    intro s hs n
    cases s with
    | nil => rfl
    | cons c rest => simp at hs
  | succ m ih =>
    intro s hs n
    cases s with
    | nil => rfl
    | cons c rest =>
      simp only [List.length_cons] at hs
      by_cases hc : c = DQUOTE
      · subst hc
        rw [count_quoted_dquote]
        rfl
      · by_cases hb : c = BACKSLASH
        · subst hb
          cases rest with
          | nil =>
            rw [count_quoted.eq_def]
            simp [backslash_ne_dquote, pointer_is_null, Scan.is_fatal]
          | cons c2 rest2 =>
            simp only [List.length_cons] at hs
            rw [count_quoted_escape]
            exact ih rest2 (by omega) _
        · rw [count_quoted_other c rest n hc hb]
          exact ih rest (by omega) _

theorem count_plain_not_fatal_aux (m : Nat) :
    ∀ (s : List Char), s.length ≤ m → ∀ n, (count_plain s n).is_fatal = false := by
  induction m with
  | zero =>
    intro s hs n
    cases s with
    | nil => rfl
    | cons c rest => simp at hs
  | succ m ih =>
    intro s hs n
    cases s with
    | nil => rfl
    | cons c rest =>
      simp only [List.length_cons] at hs
      cases hsp : isspace c with
      | true =>
        rw [count_plain_space c rest n hsp]
        rfl
      | false =>
        by_cases hb : c = BACKSLASH
        · subst hb
          cases rest with
          | nil =>
            rw [count_plain.eq_def]
            simp [isspace_backslash, Scan.is_fatal]
          | cons c2 rest2 =>
            simp only [List.length_cons] at hs
            rw [count_plain_escape]
            exact ih rest2 (by omega) _
        · rw [count_plain_other c rest n hsp hb]
          exact ih rest (by omega) _

theorem first_pass_not_fatal (fuel : Nat) :
    ∀ (s : List Char) (argc len : Nat), (first_pass fuel s argc len).is_fatal = false := by
  induction fuel with
  | zero => intro s argc len; rfl
  | succ fuel ih =>
    intro s argc len
    rw [first_pass]
    cases skip_space s with
    | nil => rfl
    | cons c rest =>
      simp only
      by_cases hc : c = DQUOTE
      · simp only [hc, if_true]
        have hq := count_quoted_not_fatal_aux rest.length rest (Nat.le_refl _) len
        cases hr : count_quoted rest len with
        | ok r => exact ih _ _ _
        | fatal_error msg => rw [hr] at hq; cases hq
        | overrun => rfl
        | out_of_fuel => rfl
      · simp only [hc, if_false]
        have hq := count_plain_not_fatal_aux (c :: rest).length (c :: rest) (Nat.le_refl _) len
        cases hr : count_plain (c :: rest) len with
        | ok r => exact ih _ _ _
        | fatal_error msg => rw [hr] at hq; cases hq
        | overrun => rfl
        | out_of_fuel => rfl

theorem copy_quoted_not_fatal_aux (m : Nat) :
    ∀ (s : List Char), s.length ≤ m → ∀ d, (copy_quoted s d).is_fatal = false := by
  induction m with
  | zero =>
    intro s hs d
    cases s with
    | nil => rfl
    | cons c rest => simp at hs
  | succ m ih =>
    intro s hs d
    cases s with
    | nil => rfl
    | cons c rest =>
      simp only [List.length_cons] at hs
      by_cases hc : c = DQUOTE
      · subst hc
        rw [copy_quoted_dquote]
        rfl
      · by_cases hb : c = BACKSLASH
        · subst hb
          cases rest with
          | nil =>
            rw [copy_quoted.eq_def]
            simp [backslash_ne_dquote, Scan.is_fatal]
          | cons c2 rest2 =>
            simp only [List.length_cons] at hs
            rw [copy_quoted_escape]
            exact ih rest2 (by omega) _
        · rw [copy_quoted_other c rest d hc hb]
          exact ih rest (by omega) _

theorem copy_plain_not_fatal_aux (m : Nat) :
    ∀ (s : List Char), s.length ≤ m → ∀ d, (copy_plain s d).is_fatal = false := by
  induction m with
  | zero =>
    intro s hs d
    cases s with
    | nil => rfl
    | cons c rest => simp at hs
  | succ m ih =>
    intro s hs d
    cases s with
    | nil => rfl
    | cons c rest =>
      simp only [List.length_cons] at hs
      cases hsp : isspace c with
      | true =>
        rw [copy_plain_space c rest d hsp]
        rfl
      | false =>
        by_cases hb : c = BACKSLASH
        · subst hb
          cases rest with
          | nil =>
            rw [copy_plain.eq_def]
            simp [isspace_backslash, Scan.is_fatal]
          | cons c2 rest2 =>
            simp only [List.length_cons] at hs
            rw [copy_plain_escape]
            exact ih rest2 (by omega) _
        · rw [copy_plain_other c rest d hsp hb]
          exact ih rest (by omega) _

theorem second_pass_not_fatal (k : Nat) :
    ∀ (s : List Char) (argv : List (List Char)), (second_pass k s argv).is_fatal = false := by
  induction k with
  | zero => intro s argv; rfl
  | succ k ih =>
    intro s argv
    rw [second_pass]
    cases skip_space s with
    | nil => rfl
    | cons c rest =>
      simp only
      by_cases hc : c = DQUOTE
      · simp only [hc, if_true]
        have hq := copy_quoted_not_fatal_aux rest.length rest (Nat.le_refl _) []
        cases hr : copy_quoted rest [] with
        | ok r => exact ih _ _
        | fatal_error msg => rw [hr] at hq; cases hq
        | overrun => rfl
        | out_of_fuel => rfl
      · simp only [hc, if_false]
        have hq := copy_plain_not_fatal_aux (c :: rest).length (c :: rest) (Nat.le_refl _) []
        cases hr : copy_plain (c :: rest) [] with
        | ok r => exact ih _ _
        | fatal_error msg => rw [hr] at hq; cases hq
        | overrun => rfl
        | out_of_fuel => rfl

/-! ### C11 -/

/-- C11: for every string on which the reference tokenizer has a result (each
argument-opening double quote has its closing quote and no backslash lacks a
following character), `make_argv` returns exactly the arguments of the
reference tokenizer, in order, with `argc` equal to their number; the bytes it
allocated for `args` are those of the arguments and their terminating NULs.
-/
theorem make_argv_reference (string : List Char) (args : List (List Char)) (fuel : Nat)
    (h : reference_args fuel string = some args) :
    make_argv string
      = .ok ⟨(args.map (fun a => a.length + 1)).sum, args, args.length⟩ := by
  have h' := reference_args_fuel fuel string args h (string.length + 1) (Nat.lt_succ_self _)
  unfold make_argv
  rw [first_pass_of_reference (string.length + 1) string args h' 0 0]
  simp only [Nat.zero_add]
  rw [second_pass_of_reference (string.length + 1) string args h' []]
  simp

/-- Witness of C11: the string `x "a b" c\ d` has the three arguments `x`,
`a b` and `c d`. -/
theorem make_argv_reference_witness :
    reference_argv sample_options = some [['x'], ['a', ' ', 'b'], ['c', ' ', 'd']] ∧
    make_argv sample_options = .ok ⟨10, [['x'], ['a', ' ', 'b'], ['c', ' ', 'd']], 3⟩ :=
  ⟨by decide,
   make_argv_reference sample_options [['x'], ['a', ' ', 'b'], ['c', ' ', 'd']]
     (sample_options.length + 1) (by decide)⟩

/-! ### C12 -/

/-- C12 (the code at the failing input): on the string `x "abc`, whose quoted
argument is not closed, `make_argv` does not call `fatal_error`: the test of
line 348 compares the pointer `s`, not the character `*s`, with zero, so the
first pass goes on past the terminating NUL.  The same holds of every
string: `make_argv` never ends in `fatal_error`. -/
theorem unterminated_quote_overruns :
    reference_argv unterminated_options = none ∧
    (make_argv unterminated_options).is_overrun = true ∧
    (make_argv unterminated_options).is_fatal = false ∧
    ∀ string, (make_argv string).is_fatal = false := by
  refine ⟨by decide, by decide, by decide, ?_⟩
  intro string
  unfold make_argv
  have h1 := first_pass_not_fatal (string.length + 1) string 0 0
  cases hr : first_pass (string.length + 1) string 0 0 with
  | ok r =>
    simp only
    have h2 := second_pass_not_fatal r.1 string []
    cases hs : second_pass r.1 string [] with
    | ok argv => rfl
    | fatal_error msg => rw [hs] at h2; cases h2
    | overrun => rfl
    | out_of_fuel => rfl
  | fatal_error msg => rw [hr] at h1; cases h1
  | overrun => rfl
  | out_of_fuel => rfl

end MercuryWrapper
